import Mathlib

/-!
# Verification of the bigtable-life-tracker WebSocket server

A shallow embedding of the game server in `src/app/App.js` (the current
server version, the final section of that file).  The server keeps an
in-memory registry of rooms; each room has an ordered list of players and a
bounded game log.  Per-connection state (the assigned player id and the
current room code) lives in the connection handler's closure; we model it
explicitly in `ServerState.conns`.

Modelling conventions:
* JS objects used as string-keyed maps (`rooms`, `commanderDamage`) become
  association lists with JS property semantics (`jget`/`jset`/`jdel`).
* Player ids are the strings `player${n}` produced by `generatePlayerId`;
  they are only ever compared for equality, so we model an id by its
  numeric suffix `n : Nat`.
* JS numbers carried by `life` and `damage` fields are modelled as `Int`
  (the client and the server only ever do integer arithmetic on them).
* The results of `generateRoomCode()` and `new Date().toLocaleTimeString()`
  are nondeterministic inputs; each event carries them as oracle fields.
* `ws.send` calls are collected as a list of (connection id, message)
  outputs; the `readyState === OPEN` guard and per-recipient try/catch in
  `broadcastGameState` only drop deliveries and are modelled as all-open.
-/

/-- A game-log record `{time, message}` as pushed by `addToLog`. -/
structure LogEntry where
  time : String
  message : String
deriving DecidableEq

/-- A player object as built in the CREATE_ROOM / JOIN_ROOM cases.
The `ws` field holds the connection handle, modelled by the connection id. -/
structure Player where
  id : Nat
  name : String
  life : Int
  color : String
  commanderDamage : List (Nat × Int)
  ws : Nat
deriving DecidableEq

/-- A room: `{ players: [], gameLog: [] }`. -/
structure Room where
  players : List Player
  gameLog : List LogEntry
deriving DecidableEq

/-- Per-connection closure state: the `playerId` assigned at connection
time and the mutable `currentRoomCode` (null until create/join). -/
structure Conn where
  playerId : Nat
  currentRoomCode : Option String
deriving DecidableEq

/-- Global server state: the `rooms` registry, the per-connection states,
and the `playerIdCounter`. -/
structure ServerState where
  rooms : List (String × Room)
  conns : List (Nat × Conn)
  playerIdCounter : Nat
deriving DecidableEq

/-- JS property read `m[key]` (undefined becomes `none`). -/
def jget {κ β : Type} [DecidableEq κ] : List (κ × β) → κ → Option β
  | [], _ => none
  | (k, v) :: rest, key => if k = key then some v else jget rest key

/-- JS property write `m[key] = val`: overwrite in place, or append a new key. -/
def jset {κ β : Type} [DecidableEq κ] : List (κ × β) → κ → β → List (κ × β)
  | [], key, val => [(key, val)]
  | (k, v) :: rest, key, val =>
      if k = key then (key, val) :: rest else (k, v) :: jset rest key val

/-- JS `delete m[key]`. -/
def jdel {κ β : Type} [DecidableEq κ] (m : List (κ × β)) (key : κ) : List (κ × β) :=
  m.filter (fun kv => kv.1 ≠ key)

/-- The palette of six player colors. -/
def playerColors : List String :=
  ["#FF6B6B", "#4ECDC4", "#45B7D1", "#96CEB4", "#FECA57", "#DDA0DD"]

/-- `players.find(p => p.id === pid)`. -/
def findPlayer : List Player → Nat → Option Player
  | [], _ => none
  | p :: rest, pid => if p.id = pid then some p else findPlayer rest pid

/-- Mutate (replace) the first player whose id matches, as JS `find` plus
in-place mutation of the found object does. -/
def updateFirst (f : Player → Player) (pid : Nat) : List Player → List Player
  | [] => []
  | p :: rest => if p.id = pid then f p :: rest else p :: updateFirst f pid rest

/-- The log-append core of `addToLog`: push the entry, then `shift()` the
oldest entry away when the log exceeds 50 records. -/
def addToLog (log : List LogEntry) (e : LogEntry) : List LogEntry :=
  let l := log ++ [e]
  if l.length > 50 then l.drop 1 else l

/-- `addToLog(roomCode, message)`: no-op when the room is missing. -/
def roomAddToLog (rooms : List (String × Room)) (code : String) (now msg : String) :
    List (String × Room) :=
  match jget rooms code with
  | none => rooms
  | some room => jset rooms code { room with gameLog := addToLog room.gameLog ⟨now, msg⟩ }

/-- The serialisable per-player snapshot built by `getGameState`
(the `ws` handle is omitted). -/
structure PlayerView where
  id : Nat
  name : String
  life : Int
  color : String
  commanderDamage : List (Nat × Int)
deriving DecidableEq

/-- The `gameState` payload `{players, gameLog}`. -/
structure GameState where
  players : List PlayerView
  gameLog : List LogEntry
deriving DecidableEq

/-- `getGameState(roomCode)`: `null` (here `none`) for a missing room. -/
def getGameState (rooms : List (String × Room)) (code : String) : Option GameState :=
  (jget rooms code).map fun room =>
    { players := room.players.map fun p =>
        { id := p.id, name := p.name, life := p.life, color := p.color,
          commanderDamage := p.commanderDamage },
      gameLog := room.gameLog }

/-- Server → client message shapes. -/
inductive ServerMessage
  | roomCreated (roomCode : String) (playerId : Nat) (gameState : Option GameState)
  | roomJoined (playerId : Nat) (gameState : Option GameState)
  | gameUpdate (gameState : Option GameState)
  | error (message : String)
deriving DecidableEq

/-- Client → server message shapes (the `type` field discriminates);
`unknown` covers every unrecognised `type`. -/
inductive ClientMessage
  | createRoom
  | joinRoom (roomCode : String)
  | updateLife (playerId : Nat) (life : Int)
  | updateCommanderDamage (sourcePlayerId targetPlayerId : Nat) (damage : Int)
  | updateName (playerId : Nat) (name : String)
  | resetGame
  | unknown (t : String)
deriving DecidableEq

/-- `broadcastGameState(roomCode)`: one GAME_UPDATE per player in the room. -/
def broadcastGameState (rooms : List (String × Room)) (code : String) :
    List (Nat × ServerMessage) :=
  match jget rooms code with
  | none => []
  | some room =>
      room.players.map fun p => (p.ws, ServerMessage.gameUpdate (getGameState rooms code))

/-- CREATE_ROOM: allocate the room, push the creator, set the connection's
current room, send ROOM_CREATED, then log the creation (no broadcast). -/
def handleCreateRoom (s : ServerState) (connId : Nat) (conn : Conn) (newCode now : String) :
    ServerState × List (Nat × ServerMessage) :=
  let creator : Player :=
    { id := conn.playerId, name := "Player 1", life := 40,
      color := playerColors.getD 0 "", commanderDamage := [], ws := connId }
  let rooms1 := jset s.rooms newCode { players := [creator], gameLog := [] }
  let conns1 := jset s.conns connId { conn with currentRoomCode := some newCode }
  let reply := (connId, ServerMessage.roomCreated newCode conn.playerId (getGameState rooms1 newCode))
  let rooms2 := roomAddToLog rooms1 newCode now (creator.name ++ " created the game")
  ({ s with rooms := rooms2, conns := conns1 }, [reply])

/-- JOIN_ROOM: reject a missing or full room with an ERROR reply; otherwise
append the new player, set the current room, send ROOM_JOINED, log the
join and broadcast. -/
def handleJoinRoom (s : ServerState) (connId : Nat) (conn : Conn) (joinCode now : String) :
    ServerState × List (Nat × ServerMessage) :=
  match jget s.rooms joinCode with
  | none => (s, [(connId, ServerMessage.error "Room not found")])
  | some room =>
    if room.players.length ≥ 6 then
      (s, [(connId, ServerMessage.error "Room is full")])
    else
      let newPlayer : Player :=
        { id := conn.playerId,
          name := "Player " ++ toString (room.players.length + 1),
          life := 40,
          color := playerColors.getD room.players.length "",
          commanderDamage := [], ws := connId }
      let rooms1 := jset s.rooms joinCode { room with players := room.players ++ [newPlayer] }
      let conns1 := jset s.conns connId { conn with currentRoomCode := some joinCode }
      let reply := (connId, ServerMessage.roomJoined conn.playerId (getGameState rooms1 joinCode))
      let rooms2 := roomAddToLog rooms1 joinCode now (newPlayer.name ++ " joined the game")
      ({ s with rooms := rooms2, conns := conns1 }, [reply] ++ broadcastGameState rooms2 joinCode)

/-- UPDATE_LIFE: silently ignore when the connection has no room or the
player id is not in the room; otherwise set the life verbatim, log the
change and broadcast. -/
def handleUpdateLife (s : ServerState) (conn : Conn) (pid : Nat) (life : Int) (now : String) :
    ServerState × List (Nat × ServerMessage) :=
  match conn.currentRoomCode with
  | none => (s, [])
  | some code =>
    match jget s.rooms code with
    | none => (s, [])
    | some room =>
      match findPlayer room.players pid with
      | none => (s, [])
      | some player =>
        let oldLife := player.life
        let change := life - oldLife
        let changeStr := if change > 0 then "+" ++ toString change else toString change
        let players1 := updateFirst (fun p => { p with life := life }) pid room.players
        let rooms1 := jset s.rooms code { room with players := players1 }
        let rooms2 := roomAddToLog rooms1 code now
          (player.name ++ ": " ++ toString oldLife ++ " → " ++ toString life
            ++ " (" ++ changeStr ++ ")")
        ({ s with rooms := rooms2 }, broadcastGameState rooms2 code)

/-- The target's life after an UPDATE_COMMANDER_DAMAGE: reduced by the
damage difference and clamped at 0, but only when the difference is
non-zero (`if (damageDifference !== 0)` in the source). -/
def ucdNewLife (targetPlayer : Player) (sourceId : Nat) (damage : Int) : Int :=
  let oldDamage := (jget targetPlayer.commanderDamage sourceId).getD 0
  let damageDifference := damage - oldDamage
  if damageDifference ≠ 0 then max 0 (targetPlayer.life - damageDifference)
  else targetPlayer.life

/-- The mutated target object of UPDATE_COMMANDER_DAMAGE:
`commanderDamage[sourceId] = damage` and the life adjustment above. -/
def ucdTarget (targetPlayer : Player) (sourceId : Nat) (damage : Int) : Player :=
  { targetPlayer with
    commanderDamage := jset targetPlayer.commanderDamage sourceId damage,
    life := ucdNewLife targetPlayer sourceId damage }

/-- UPDATE_COMMANDER_DAMAGE: when both players are found, store the new
damage value for that source, adjust the target's life by the damage
difference clamped at 0 (only when the difference is non-zero), log when
the difference is non-zero, and broadcast. -/
def handleUpdateCommanderDamage (s : ServerState) (conn : Conn)
    (sourceId targetId : Nat) (damage : Int) (now : String) :
    ServerState × List (Nat × ServerMessage) :=
  match conn.currentRoomCode with
  | none => (s, [])
  | some code =>
    match jget s.rooms code with
    | none => (s, [])
    | some room =>
      match findPlayer room.players targetId, findPlayer room.players sourceId with
      | some targetPlayer, some sourcePlayer =>
        let oldDamage := (jget targetPlayer.commanderDamage sourceId).getD 0
        let newDamage := damage
        let damageDifference := newDamage - oldDamage
        let newLife := ucdNewLife targetPlayer sourceId damage
        let newTarget : Player := ucdTarget targetPlayer sourceId damage
        let players1 := updateFirst (fun _ => newTarget) targetId room.players
        let rooms1 := jset s.rooms code { room with players := players1 }
        let rooms2 :=
          if damageDifference > 0 then
            roomAddToLog rooms1 code now
              (sourcePlayer.name ++ " dealt " ++ toString damageDifference
                ++ " commander damage to " ++ targetPlayer.name
                ++ " (total: " ++ toString newDamage ++ ") - Life: "
                ++ toString (newLife + damageDifference) ++ " → " ++ toString newLife)
          else if damageDifference < 0 then
            roomAddToLog rooms1 code now
              (sourcePlayer.name ++ " removed " ++ toString damageDifference.natAbs
                ++ " commander damage from " ++ targetPlayer.name
                ++ " (total: " ++ toString newDamage ++ ") - Life: "
                ++ toString (newLife - damageDifference) ++ " → " ++ toString newLife)
          else rooms1
        ({ s with rooms := rooms2 }, broadcastGameState rooms2 code)
      | _, _ => (s, [])

/-- UPDATE_NAME: replace the found player's name verbatim, log, broadcast. -/
def handleUpdateName (s : ServerState) (conn : Conn) (pid : Nat) (name now : String) :
    ServerState × List (Nat × ServerMessage) :=
  match conn.currentRoomCode with
  | none => (s, [])
  | some code =>
    match jget s.rooms code with
    | none => (s, [])
    | some room =>
      match findPlayer room.players pid with
      | none => (s, [])
      | some playerToRename =>
        let players1 := updateFirst (fun p => { p with name := name }) pid room.players
        let rooms1 := jset s.rooms code { room with players := players1 }
        let rooms2 := roomAddToLog rooms1 code now
          (playerToRename.name ++ " changed name to " ++ name)
        ({ s with rooms := rooms2 }, broadcastGameState rooms2 code)

/-- RESET_GAME: every player back to life 40 with an empty damage map, the
log cleared and replaced by the single "Game reset" entry, then broadcast. -/
def handleResetGame (s : ServerState) (conn : Conn) (now : String) :
    ServerState × List (Nat × ServerMessage) :=
  match conn.currentRoomCode with
  | none => (s, [])
  | some code =>
    match jget s.rooms code with
    | none => (s, [])
    | some room =>
      let players1 := room.players.map fun p => { p with life := 40, commanderDamage := [] }
      let rooms1 := jset s.rooms code { room with players := players1, gameLog := [] }
      let rooms2 := roomAddToLog rooms1 code now "Game reset"
      ({ s with rooms := rooms2 }, broadcastGameState rooms2 code)

/-- The `ws.on('message')` handler.  A `none` payload models a frame that
`JSON.parse` rejects: the thrown exception is caught by the surrounding
try/catch, which sends one ERROR reply and touches no state. -/
def handleMessage (s : ServerState) (connId : Nat) (newCode now : String)
    (data : Option ClientMessage) : ServerState × List (Nat × ServerMessage) :=
  match jget s.conns connId with
  | none => (s, [])
  | some conn =>
    match data with
    | none => (s, [(connId, ServerMessage.error "Invalid message format")])
    | some ClientMessage.createRoom => handleCreateRoom s connId conn newCode now
    | some (ClientMessage.joinRoom code) => handleJoinRoom s connId conn code now
    | some (ClientMessage.updateLife pid life) => handleUpdateLife s conn pid life now
    | some (ClientMessage.updateCommanderDamage sid tid dmg) =>
        handleUpdateCommanderDamage s conn sid tid dmg now
    | some (ClientMessage.updateName pid name) => handleUpdateName s conn pid name now
    | some ClientMessage.resetGame => handleResetGame s conn now
    | some (ClientMessage.unknown _) => (s, [])

/-- The `ws.on('close')` handler: drop the player from its current room,
delete the room when it empties, otherwise log the departure and broadcast.
The connection's closure state is gone afterwards. -/
def handleClose (s : ServerState) (connId : Nat) (now : String) :
    ServerState × List (Nat × ServerMessage) :=
  match jget s.conns connId with
  | none => (s, [])
  | some conn =>
    let conns1 := jdel s.conns connId
    match conn.currentRoomCode with
    | none => ({ s with conns := conns1 }, [])
    | some code =>
      match jget s.rooms code with
      | none => ({ s with conns := conns1 }, [])
      | some room =>
        let playerName :=
          match findPlayer room.players conn.playerId with
          | some p => p.name
          | none => "player" ++ toString conn.playerId
        let remaining := room.players.filter fun p => p.id ≠ conn.playerId
        if remaining.length = 0 then
          ({ s with rooms := jdel s.rooms code, conns := conns1 }, [])
        else
          let rooms1 := jset s.rooms code { room with players := remaining }
          let rooms2 := roomAddToLog rooms1 code now (playerName ++ " left the game")
          ({ s with rooms := rooms2, conns := conns1 }, broadcastGameState rooms2 code)

/-- The `wss.on('connection')` handler: assign the next player id.  A
connection handle is unique for its lifetime, so a connect on an already
live id is modelled as a no-op. -/
def handleConnect (s : ServerState) (connId : Nat) : ServerState :=
  match jget s.conns connId with
  | some _ => s
  | none =>
    { s with
      conns := jset s.conns connId { playerId := s.playerIdCounter, currentRoomCode := none },
      playerIdCounter := s.playerIdCounter + 1 }

/-- Server events: a new connection, an inbound frame (with the room-code
and wall-clock oracles), or a connection close. -/
inductive Event
  | connect (connId : Nat)
  | message (connId : Nat) (newCode now : String) (data : Option ClientMessage)
  | close (connId : Nat) (now : String)

/-- One event step, with the messages sent while handling it. -/
def stepEv (s : ServerState) : Event → ServerState × List (Nat × ServerMessage)
  | Event.connect connId => (handleConnect s connId, [])
  | Event.message connId newCode now data => handleMessage s connId newCode now data
  | Event.close connId now => handleClose s connId now

/-- The state part of a step. -/
def stepState (s : ServerState) (e : Event) : ServerState := (stepEv s e).1

/-- The server boots with no rooms, no connections and the counter at 1. -/
def initState : ServerState := { rooms := [], conns := [], playerIdCounter := 1 }

/-- The state after a whole sequence of events. -/
def runEvents (es : List Event) : ServerState := es.foldl stepState initState

/-- The keys of a JS-object association list. -/
def keys {κ β : Type} (m : List (κ × β)) : List κ := m.map Prod.fst

/-- An event is room-discipline respecting when the connection does not
create or join a room while it is already in one.  (The client UI only
offers create/join from the home screen, so its traces satisfy this.) -/
def goodEvent (s : ServerState) : Event → Prop
  | Event.message connId _ _ (some ClientMessage.createRoom) =>
      ∀ c, jget s.conns connId = some c → c.currentRoomCode = none
  | Event.message connId _ _ (some (ClientMessage.joinRoom _)) =>
      ∀ c, jget s.conns connId = some c → c.currentRoomCode = none
  | _ => True

/-- States reachable from boot through room-discipline-respecting events. -/
inductive GoodReach : ServerState → Prop
  | init : GoodReach initState
  | step (s : ServerState) (e : Event) : GoodReach s → goodEvent s e → GoodReach (stepState s e)

/-- The inductive invariant behind "a player belongs to at most one room"
(for room-discipline-respecting traces): room and connection keys are
unique, all player ids are below the counter, connection player ids are
pairwise distinct, a roomless connection's id occurs in no room, and a
player id occurs in at most one room. -/
def singleRoomInv (s : ServerState) : Prop :=
  (keys s.rooms).Nodup ∧
  (keys s.conns).Nodup ∧
  (∀ c ∈ s.conns, c.2.playerId < s.playerIdCounter) ∧
  (∀ e ∈ s.rooms, ∀ p ∈ e.2.players, p.id < s.playerIdCounter) ∧
  (∀ c1 ∈ s.conns, ∀ c2 ∈ s.conns, c1.2.playerId = c2.2.playerId → c1 = c2) ∧
  (∀ c ∈ s.conns, c.2.currentRoomCode = none →
      ∀ e ∈ s.rooms, ∀ p ∈ e.2.players, p.id ≠ c.2.playerId) ∧
  (∀ e1 ∈ s.rooms, ∀ e2 ∈ s.rooms, ∀ pid : Nat,
      (∃ p ∈ e1.2.players, p.id = pid) → (∃ q ∈ e2.2.players, q.id = pid) → e1 = e2)

/-- An event whose UPDATE_LIFE payload (if any) carries a non-negative
life value.  The client always sends `Math.max(0, ...)`-clamped values. -/
def eventLifeOK : Event → Prop
  | Event.message _ _ _ (some (ClientMessage.updateLife _ l)) => 0 ≤ l
  | _ => True

/-- An event whose UPDATE_COMMANDER_DAMAGE payload (if any) carries a
non-negative damage value. -/
def eventDamageOK : Event → Prop
  | Event.message _ _ _ (some (ClientMessage.updateCommanderDamage _ _ d)) => 0 ≤ d
  | _ => True

/-- A two-player room used by witnesses: connection 1 creates room AAAAAA
and connection 2 joins it. -/
def twoPlayerEvents : List Event :=
  [Event.connect 1, Event.connect 2,
   Event.message 1 "AAAAAA" "10:00:00 AM" (some ClientMessage.createRoom),
   Event.message 2 "" "10:00:01 AM" (some (ClientMessage.joinRoom "AAAAAA"))]

/-- The room state produced by `twoPlayerEvents`. -/
def twoPlayerRoom : Room :=
  { players :=
      [{ id := 1, name := "Player 1", life := 40, color := "#FF6B6B",
         commanderDamage := [], ws := 1 },
       { id := 2, name := "Player 2", life := 40, color := "#4ECDC4",
         commanderDamage := [], ws := 2 }],
    gameLog :=
      [⟨"10:00:00 AM", "Player 1 created the game"⟩,
       ⟨"10:00:01 AM", "Player 2 joined the game"⟩] }

/-- A minimal player record used to populate handcrafted witness states. -/
def mkP (n : Nat) : Player :=
  { id := n, name := "P", life := 40, color := "", commanderDamage := [], ws := n }

/-- A room that is exactly full (6 players). -/
def fullRoom : Room :=
  { players := [mkP 1, mkP 2, mkP 3, mkP 4, mkP 5, mkP 6], gameLog := [] }

/-- A state with the full room AAAAAA and one roomless connection 7. -/
def fullState : ServerState :=
  { rooms := [("AAAAAA", fullRoom)], conns := [(7, ⟨7, none⟩)], playerIdCounter := 8 }

/-- A short room-discipline-respecting trace: one connection creates one
room. -/
def wGoodTrace : List Event :=
  [Event.connect 1,
   Event.message 1 "AAAAAA" "10:00:00 AM" (some ClientMessage.createRoom)]

/-- The room produced by `wGoodTrace`. -/
def wGoodRoom : Room :=
  { players :=
      [{ id := 1, name := "Player 1", life := 40, color := "#FF6B6B",
         commanderDamage := [], ws := 1 }],
    gameLog := [⟨"10:00:00 AM", "Player 1 created the game"⟩] }

/-- Witness trace for the clamped-inputs life invariant: a non-negative
UPDATE_LIFE and a negative commander-damage value. -/
def wLifeEvents : List Event :=
  [Event.connect 1,
   Event.message 1 "AAAAAA" "10:00:00 AM" (some ClientMessage.createRoom),
   Event.message 1 "" "10:00:01 AM" (some (ClientMessage.updateLife 1 5)),
   Event.message 1 "" "10:00:02 AM" (some (ClientMessage.updateCommanderDamage 1 1 (-2)))]

/-- Witness trace for the non-negative-damage invariant. -/
def wDamageEvents : List Event :=
  [Event.connect 1, Event.connect 2,
   Event.message 1 "AAAAAA" "10:00:00 AM" (some ClientMessage.createRoom),
   Event.message 2 "" "10:00:01 AM" (some (ClientMessage.joinRoom "AAAAAA")),
   Event.message 1 "" "10:00:02 AM" (some (ClientMessage.updateCommanderDamage 1 2 3))]

/-- Counterexample trace: UPDATE_LIFE stores the client-sent value verbatim,
so a negative life input yields a negative stored life. -/
def cexLifeEvents : List Event :=
  [Event.connect 1,
   Event.message 1 "AAAAAA" "10:00:00 AM" (some ClientMessage.createRoom),
   Event.message 1 "" "10:00:01 AM" (some (ClientMessage.updateLife 1 (-5)))]

/-- Counterexample trace: UPDATE_COMMANDER_DAMAGE stores the client-sent
damage verbatim, so a negative damage input is kept in the damage map. -/
def cexDamageEvents : List Event :=
  [Event.connect 1, Event.connect 2,
   Event.message 1 "AAAAAA" "10:00:00 AM" (some ClientMessage.createRoom),
   Event.message 2 "" "10:00:01 AM" (some (ClientMessage.joinRoom "AAAAAA")),
   Event.message 1 "" "10:00:02 AM" (some (ClientMessage.updateCommanderDamage 1 2 (-3)))]

/-- Counterexample trace: a connection already in room AAAAAA joins room
BBBBBB; it is pushed into BBBBBB without being removed from AAAAAA. -/
def cexTwoRoomsEvents : List Event :=
  [Event.connect 1, Event.connect 2,
   Event.message 1 "AAAAAA" "10:00:00 AM" (some ClientMessage.createRoom),
   Event.message 2 "BBBBBB" "10:00:01 AM" (some ClientMessage.createRoom),
   Event.message 1 "" "10:00:02 AM" (some (ClientMessage.joinRoom "BBBBBB"))]

/-- Counterexample trace: player 2's life is set to -5, then a commander
damage update with unchanged damage (difference 0) skips the clamping
branch, leaving the resulting life below 0. -/
def cexClampEvents : List Event :=
  [Event.connect 1, Event.connect 2,
   Event.message 1 "AAAAAA" "10:00:00 AM" (some ClientMessage.createRoom),
   Event.message 2 "" "10:00:01 AM" (some (ClientMessage.joinRoom "AAAAAA")),
   Event.message 1 "" "10:00:02 AM" (some (ClientMessage.updateLife 2 (-5))),
   Event.message 1 "" "10:00:03 AM" (some (ClientMessage.updateCommanderDamage 1 2 0))]

/-! ## Association-list lemmas -/

theorem jget_jset_self {κ β : Type} [DecidableEq κ] (m : List (κ × β)) (k : κ) (v : β) :
    jget (jset m k v) k = some v := by
  induction m with
  | nil => simp [jset, jget]
  | cons kv rest ih =>
    obtain ⟨k', v'⟩ := kv
    by_cases h : k' = k
    · simp [jset, h, jget]
    · simp [jset, h, jget, ih]

theorem jget_jset_ne {κ β : Type} [DecidableEq κ] (m : List (κ × β)) (k k' : κ) (v : β)
    (h : k' ≠ k) : jget (jset m k v) k' = jget m k' := by
  induction m with
  | nil => simp [jset, jget, Ne.symm h]
  | cons kv rest ih =>
    obtain ⟨k'', v''⟩ := kv
    by_cases hk : k'' = k
    · subst hk
      simp [jset, jget, Ne.symm h]
    · by_cases hk' : k'' = k'
      · subst hk'
        simp [jset, jget, hk]
      · simp [jset, jget, hk, hk', ih]

theorem mem_jset {κ β : Type} [DecidableEq κ] {m : List (κ × β)} {k : κ} {v : β}
    {e : κ × β} (h : e ∈ jset m k v) : e = (k, v) ∨ e ∈ m := by
  induction m with
  | nil => simpa [jset] using h
  | cons kv rest ih =>
    obtain ⟨k', v'⟩ := kv
    by_cases hk : k' = k
    · simp only [jset, if_pos hk, List.mem_cons] at h
      rcases h with h | h
      · exact Or.inl h
      · exact Or.inr (List.mem_cons_of_mem _ h)
    · simp only [jset, if_neg hk, List.mem_cons] at h
      rcases h with h | h
      · exact Or.inr (by simp [h])
      · rcases ih h with h' | h'
        · exact Or.inl h'
        · exact Or.inr (List.mem_cons_of_mem _ h')

theorem jget_mem {κ β : Type} [DecidableEq κ] {m : List (κ × β)} {k : κ} {v : β}
    (h : jget m k = some v) : (k, v) ∈ m := by
  induction m with
  | nil => simp [jget] at h
  | cons kv rest ih =>
    obtain ⟨k', v'⟩ := kv
    by_cases hk : k' = k
    · simp only [jget, if_pos hk] at h
      injection h with h
      subst hk
      exact List.mem_cons.2 (Or.inl (by rw [h]))
    · simp only [jget, if_neg hk] at h
      exact List.mem_cons_of_mem _ (ih h)

theorem jget_eq_none {κ β : Type} [DecidableEq κ] {m : List (κ × β)} {k : κ}
    (h : jget m k = none) : ∀ e ∈ m, e.1 ≠ k := by
  induction m with
  | nil => simp
  | cons kv rest ih =>
    obtain ⟨k', v'⟩ := kv
    by_cases hk : k' = k
    · simp [jget, hk] at h
    · simp only [jget, if_neg hk] at h
      intro e he
      rcases List.mem_cons.1 he with he | he
      · simpa [he] using hk
      · exact ih h e he

theorem jget_jdel_self {κ β : Type} [DecidableEq κ] (m : List (κ × β)) (k : κ) :
    jget (jdel m k) k = none := by
  induction m with
  | nil => simp [jdel, jget]
  | cons kv rest ih =>
    obtain ⟨k', v'⟩ := kv
    by_cases hk : k' = k
    · simpa [jdel, hk] using ih
    · simpa [jdel, jget, hk] using ih

theorem mem_jdel {κ β : Type} [DecidableEq κ] {m : List (κ × β)} {k : κ} {e : κ × β}
    (h : e ∈ jdel m k) : e ∈ m :=
  List.mem_of_mem_filter h

theorem jset_jset_self {κ β : Type} [DecidableEq κ] (m : List (κ × β)) (k : κ) (v v' : β) :
    jset (jset m k v) k v' = jset m k v' := by
  induction m with
  | nil => simp [jset]
  | cons kv rest ih =>
    obtain ⟨k'', v''⟩ := kv
    by_cases hk : k'' = k
    · simp [jset, hk]
    · simp [jset, hk, ih]

theorem jset_jget_self {κ β : Type} [DecidableEq κ] {m : List (κ × β)} {k : κ} {v : β}
    (h : jget m k = some v) : jset m k v = m := by
  induction m with
  | nil => simp [jget] at h
  | cons kv rest ih =>
    obtain ⟨k', v'⟩ := kv
    by_cases hk : k' = k
    · simp only [jget, if_pos hk] at h
      injection h with h
      simp [jset, hk, h]
    · simp only [jget, if_neg hk] at h
      simp [jset, hk, ih h]

theorem keys_jset_subset {κ β : Type} [DecidableEq κ] {m : List (κ × β)} {k a : κ} {v : β}
    (h : a ∈ keys (jset m k v)) : a = k ∨ a ∈ keys m := by
  induction m with
  | nil => simpa [jset, keys] using h
  | cons kv rest ih =>
    obtain ⟨k', v'⟩ := kv
    by_cases hk : k' = k
    · subst hk
      simp only [jset, eq_self_iff_true, if_true, keys, List.map_cons, List.mem_cons] at h ⊢
      exact h.imp id Or.inr
    · simp only [jset, if_neg hk, keys, List.map_cons, List.mem_cons] at h ⊢
      rcases h with h | h
      · exact Or.inr (Or.inl h)
      · rcases ih (by simpa [keys] using h) with h' | h'
        · exact Or.inl h'
        · exact Or.inr (Or.inr (by simpa [keys] using h'))

theorem keys_nodup_jset {κ β : Type} [DecidableEq κ] {m : List (κ × β)} {k : κ} {v : β}
    (h : (keys m).Nodup) : (keys (jset m k v)).Nodup := by
  induction m with
  | nil => simp [jset, keys]
  | cons kv rest ih =>
    obtain ⟨k', v'⟩ := kv
    simp only [keys, List.map_cons, List.nodup_cons] at h
    by_cases hk : k' = k
    · subst hk
      simpa [jset, keys, List.nodup_cons] using h
    · have hkeys : keys (jset ((k', v') :: rest) k v) = k' :: keys (jset rest k v) := by
        simp [jset, hk, keys]
      rw [hkeys]
      refine List.nodup_cons.2 ⟨?_, ih h.2⟩
      intro hmem
      rcases keys_jset_subset hmem with h' | h'
      · exact hk h'
      · exact h.1 (by simpa [keys] using h')

theorem keys_nodup_jdel {κ β : Type} [DecidableEq κ] {m : List (κ × β)} {k : κ}
    (h : (keys m).Nodup) : (keys (jdel m k)).Nodup :=
  List.Nodup.sublist (List.Sublist.map Prod.fst (List.filter_sublist m)) h

theorem mem_keys_inj {κ β : Type} [DecidableEq κ] {m : List (κ × β)}
    (h : (keys m).Nodup) {e₁ e₂ : κ × β} (h₁ : e₁ ∈ m) (h₂ : e₂ ∈ m)
    (hk : e₁.1 = e₂.1) : e₁ = e₂ := by
  induction m with
  | nil => simp at h₁
  | cons kv rest ih =>
    simp only [keys, List.map_cons, List.nodup_cons] at h
    rcases List.mem_cons.1 h₁ with h₁ | h₁ <;> rcases List.mem_cons.1 h₂ with h₂ | h₂
    · rw [h₁, h₂]
    · exact absurd (by rw [← h₁, hk]; exact List.mem_map_of_mem Prod.fst h₂) h.1
    · exact absurd (by rw [← h₂, ← hk]; exact List.mem_map_of_mem Prod.fst h₁) h.1
    · exact ih h.2 h₁ h₂

theorem mem_jset_nodup {κ β : Type} [DecidableEq κ] {m : List (κ × β)} {k : κ} {v : β}
    (hn : (keys m).Nodup) {e : κ × β} (h : e ∈ jset m k v) :
    e = (k, v) ∨ (e ∈ m ∧ e.1 ≠ k) := by
  induction m with
  | nil => exact Or.inl (by simpa [jset] using h)
  | cons kv rest ih =>
    obtain ⟨k', v'⟩ := kv
    simp only [keys, List.map_cons, List.nodup_cons] at hn
    by_cases hk : k' = k
    · subst hk
      simp only [jset, eq_self_iff_true, if_true, List.mem_cons] at h
      rcases h with h | h
      · exact Or.inl h
      · refine Or.inr ⟨List.mem_cons_of_mem _ h, ?_⟩
        intro hek
        exact hn.1 (by rw [← hek]; exact List.mem_map_of_mem Prod.fst h)
    · simp only [jset, if_neg hk, List.mem_cons] at h
      rcases h with h | h
      · exact Or.inr ⟨by simp [h], by simp [h, hk]⟩
      · rcases ih hn.2 h with h' | h'
        · exact Or.inl h'
        · exact Or.inr ⟨List.mem_cons_of_mem _ h'.1, h'.2⟩

/-! ## Player-list lemmas -/

theorem findPlayer_some {ps : List Player} {pid : Nat} {p : Player}
    (h : findPlayer ps pid = some p) : p ∈ ps ∧ p.id = pid := by
  induction ps with
  | nil => simp [findPlayer] at h
  | cons q rest ih =>
    by_cases hq : q.id = pid
    · simp only [findPlayer, if_pos hq] at h
      injection h with h
      subst h
      exact ⟨List.mem_cons_self q rest, hq⟩
    · simp only [findPlayer, if_neg hq] at h
      exact ⟨List.mem_cons_of_mem _ (ih h).1, (ih h).2⟩

theorem findPlayer_eq_none {ps : List Player} {pid : Nat}
    (h : ∀ p ∈ ps, p.id ≠ pid) : findPlayer ps pid = none := by
  induction ps with
  | nil => simp [findPlayer]
  | cons q rest ih =>
    simp only [findPlayer, if_neg (h q (List.mem_cons_self q rest))]
    exact ih fun p hp => h p (List.mem_cons_of_mem _ hp)

theorem length_updateFirst (f : Player → Player) (pid : Nat) (ps : List Player) :
    (updateFirst f pid ps).length = ps.length := by
  induction ps with
  | nil => rfl
  | cons q rest ih =>
    by_cases hq : q.id = pid <;> simp [updateFirst, hq, ih]

theorem mem_updateFirst {f : Player → Player} {pid : Nat} {ps : List Player} {q : Player}
    (h : q ∈ updateFirst f pid ps) : q ∈ ps ∨ ∃ p, p ∈ ps ∧ q = f p := by
  induction ps with
  | nil => simp [updateFirst] at h
  | cons p rest ih =>
    by_cases hp : p.id = pid
    · simp only [updateFirst, if_pos hp, List.mem_cons] at h
      rcases h with h | h
      · exact Or.inr ⟨p, List.mem_cons_self p rest, h⟩
      · exact Or.inl (List.mem_cons_of_mem _ h)
    · simp only [updateFirst, if_neg hp, List.mem_cons] at h
      rcases h with h | h
      · exact Or.inl (by simp [h])
      · rcases ih h with h' | ⟨p', hp', hq'⟩
        · exact Or.inl (List.mem_cons_of_mem _ h')
        · exact Or.inr ⟨p', List.mem_cons_of_mem _ hp', hq'⟩

theorem findPlayer_updateFirst_const {ps : List Player} {pid : Nat} {p q : Player}
    (hfind : findPlayer ps pid = some p) (hq : q.id = pid) :
    findPlayer (updateFirst (fun _ => q) pid ps) pid = some q := by
  induction ps with
  | nil => simp [findPlayer] at hfind
  | cons r rest ih =>
    by_cases hr : r.id = pid
    · simp [updateFirst, hr, findPlayer, hq]
    · simp only [findPlayer, if_neg hr] at hfind
      simp [updateFirst, hr, findPlayer, ih hfind]

theorem findPlayer_updateFirst_ne {ps : List Player} {pid sid : Nat} {q : Player}
    (hq : q.id = pid) (hne : sid ≠ pid) :
    findPlayer (updateFirst (fun _ => q) pid ps) sid = findPlayer ps sid := by
  induction ps with
  | nil => rfl
  | cons r rest ih =>
    by_cases hr : r.id = pid
    · have hrs : r.id ≠ sid := by rw [hr]; exact Ne.symm hne
      have hqs : q.id ≠ sid := by rw [hq]; exact Ne.symm hne
      simp [updateFirst, hr, findPlayer, hrs, hqs, Ne.symm hne]
    · by_cases hrs : r.id = sid
      · simp [updateFirst, hr, findPlayer, hrs, hne]
      · simp [updateFirst, hr, findPlayer, hrs, ih]

theorem updateFirst_const_idem {ps : List Player} {pid : Nat} {q : Player} (hq : q.id = pid) :
    updateFirst (fun _ => q) pid (updateFirst (fun _ => q) pid ps) =
      updateFirst (fun _ => q) pid ps := by
  induction ps with
  | nil => rfl
  | cons r rest ih =>
    by_cases hr : r.id = pid
    · simp [updateFirst, hr, hq]
    · simp [updateFirst, hr, ih]

/-! ## Log lemmas -/

theorem addToLog_getLast (log : List LogEntry) (e : LogEntry) :
    (addToLog log e).getLast? = some e := by
  unfold addToLog
  by_cases h : (log ++ [e]).length > 50
  · have h1 : 1 ≤ log.length := by
      simp only [List.length_append, List.length_cons, List.length_nil] at h
      omega
    simp only [if_pos h, List.drop_append_of_le_length h1]
    simp
  · simp only [if_neg h]
    simp

theorem addToLog_length_le {log : List LogEntry} (e : LogEntry) (h : log.length ≤ 50) :
    (addToLog log e).length ≤ 50 := by
  unfold addToLog
  by_cases h' : (log ++ [e]).length > 50
  · simp only [if_pos h', List.length_drop]
    simp only [List.length_append, List.length_cons, List.length_nil]
    omega
  · simp only [if_neg h']
    omega

theorem foldl_addToLog_drop (es : List LogEntry) :
    ∀ log : List LogEntry, log.length ≤ 50 →
      es.foldl addToLog log = (log ++ es).drop ((log ++ es).length - 50) := by
  induction es with
  | nil =>
    intro log h
    simp [Nat.sub_eq_zero_of_le h]
  | cons e rest ih =>
    intro log h
    by_cases h50 : log.length = 50
    · have hstep : addToLog log e = (log ++ [e]).drop 1 := by
        unfold addToLog
        rw [if_pos (by simp [h50])]
      have hlen : (addToLog log e).length ≤ 50 := addToLog_length_le e (le_of_eq h50)
      rw [List.foldl_cons, ih (addToLog log e) hlen, hstep]
      have h1 : (1 : Nat) ≤ (log ++ [e]).length := by simp
      rw [← List.drop_append_of_le_length h1, List.drop_drop]
      have harr : log ++ [e] ++ rest = log ++ e :: rest := by simp
      rw [harr]
      congr 1
      simp only [List.length_drop, List.length_append, List.length_cons, List.length_nil]
      omega
    · have hstep : addToLog log e = log ++ [e] := by
        unfold addToLog
        rw [if_neg (by
          simp only [List.length_append, List.length_cons, List.length_nil, gt_iff_lt, not_lt]
          omega)]
      rw [List.foldl_cons, hstep, ih (log ++ [e]) (by
        simp only [List.length_append, List.length_cons, List.length_nil]
        omega)]
      have harr : log ++ [e] ++ rest = log ++ e :: rest := by simp
      rw [harr]

/-! ## Registry-level lemmas -/

theorem jget_roomAddToLog_self {rooms : List (String × Room)} {code : String}
    {room : Room} (now msg : String) (h : jget rooms code = some room) :
    jget (roomAddToLog rooms code now msg) code =
      some { room with gameLog := addToLog room.gameLog ⟨now, msg⟩ } := by
  unfold roomAddToLog
  rw [h]
  exact jget_jset_self ..

theorem mem_roomAddToLog {rooms : List (String × Room)} {code now msg : String}
    {e : String × Room} (h : e ∈ roomAddToLog rooms code now msg) :
    ∃ e' ∈ rooms, e.1 = e'.1 ∧ e.2.players = e'.2.players := by
  unfold roomAddToLog at h
  cases hg : jget rooms code with
  | none =>
    rw [hg] at h
    exact ⟨e, h, rfl, rfl⟩
  | some room =>
    rw [hg] at h
    rcases mem_jset h with h' | h'
    · exact ⟨(code, room), jget_mem hg, by rw [h'], by rw [h']⟩
    · exact ⟨e, h', rfl, rfl⟩

theorem keys_nodup_roomAddToLog {rooms : List (String × Room)} {code now msg : String}
    (h : (keys rooms).Nodup) : (keys (roomAddToLog rooms code now msg)).Nodup := by
  unfold roomAddToLog
  cases jget rooms code with
  | none => exact h
  | some room => exact keys_nodup_jset h

theorem playersP_jset {P : List Player → Prop} {rooms : List (String × Room)}
    {code : String} {room' : Room} (h : ∀ e ∈ rooms, P e.2.players)
    (h' : P room'.players) : ∀ e ∈ jset rooms code room', P e.2.players := by
  intro e he
  rcases mem_jset he with heq | hmem
  · rw [heq]
    exact h'
  · exact h e hmem

theorem playersP_roomAddToLog {P : List Player → Prop} {rooms : List (String × Room)}
    {code now msg : String} (h : ∀ e ∈ rooms, P e.2.players) :
    ∀ e ∈ roomAddToLog rooms code now msg, P e.2.players := by
  intro e he
  obtain ⟨e', he', -, hp⟩ := mem_roomAddToLog he
  rw [hp]
  exact h e' he'

theorem playersP_jdel {P : List Player → Prop} {rooms : List (String × Room)}
    {code : String} (h : ∀ e ∈ rooms, P e.2.players) :
    ∀ e ∈ jdel rooms code, P e.2.players :=
  fun e he => h e (mem_jdel he)

/-! ## C9: malformed frames -/

/-- C9: a malformed (non-JSON-parseable) frame from a live connection is
answered by exactly one ERROR reply to that connection, and the whole
server state is left unchanged, so the handler survives and processes
later messages from this and other connections exactly as before. -/
theorem malformed_frame_one_error_state_unchanged
    (s : ServerState) (connId : Nat) (newCode now : String) (conn : Conn)
    (h : jget s.conns connId = some conn) :
    stepEv s (Event.message connId newCode now none) =
      (s, [(connId, ServerMessage.error "Invalid message format")]) := by
  simp [stepEv, handleMessage, h]

/-- Witness for C9 at a concrete state: one live connection, no rooms. -/
theorem malformed_frame_one_error_state_unchanged_witness :
    jget (runEvents [Event.connect 1]).conns 1 = some ⟨1, none⟩ ∧
    stepEv (runEvents [Event.connect 1]) (Event.message 1 "" "12:00:00 PM" none) =
      (runEvents [Event.connect 1], [(1, ServerMessage.error "Invalid message format")]) :=
  ⟨by decide,
   malformed_frame_one_error_state_unchanged (runEvents [Event.connect 1]) 1 "" "12:00:00 PM"
     ⟨1, none⟩ (by decide)⟩

/-! ## C10: unknown player ids are silent no-ops -/

/-- C10: for a connection that is in a room, an UPDATE_LIFE, UPDATE_NAME or
UPDATE_COMMANDER_DAMAGE message whose playerId (resp. sourcePlayerId or
targetPlayerId) matches no player of that room changes nothing: the state
is untouched, nothing is broadcast, and no ERROR reply is sent. -/
theorem unknown_player_ids_silent_noop
    (s : ServerState) (connId : Nat) (conn : Conn) (code : String) (room : Room)
    (hconn : jget s.conns connId = some conn)
    (hcode : conn.currentRoomCode = some code)
    (hroom : jget s.rooms code = some room) :
    (∀ (pid : Nat) (life : Int) (newCode now : String),
        (∀ p ∈ room.players, p.id ≠ pid) →
        stepEv s (Event.message connId newCode now
          (some (ClientMessage.updateLife pid life))) = (s, [])) ∧
    (∀ (pid : Nat) (name newCode now : String),
        (∀ p ∈ room.players, p.id ≠ pid) →
        stepEv s (Event.message connId newCode now
          (some (ClientMessage.updateName pid name))) = (s, [])) ∧
    (∀ (sid tid : Nat) (dmg : Int) (newCode now : String),
        ((∀ p ∈ room.players, p.id ≠ tid) ∨ (∀ p ∈ room.players, p.id ≠ sid)) →
        stepEv s (Event.message connId newCode now
          (some (ClientMessage.updateCommanderDamage sid tid dmg))) = (s, [])) := by
  refine ⟨?_, ?_, ?_⟩
  · intro pid life newCode now hnone
    simp [stepEv, handleMessage, handleUpdateLife, hconn, hcode, hroom,
      findPlayer_eq_none hnone]
  · intro pid name newCode now hnone
    simp [stepEv, handleMessage, handleUpdateName, hconn, hcode, hroom,
      findPlayer_eq_none hnone]
  · intro sid tid dmg newCode now hnone
    rcases hnone with hnone | hnone
    · simp [stepEv, handleMessage, handleUpdateCommanderDamage, hconn, hcode, hroom,
        findPlayer_eq_none hnone]
    · cases hft : findPlayer room.players tid with
      | none =>
        simp [stepEv, handleMessage, handleUpdateCommanderDamage, hconn, hcode, hroom, hft]
      | some t =>
        simp [stepEv, handleMessage, handleUpdateCommanderDamage, hconn, hcode, hroom, hft,
          findPlayer_eq_none hnone]

/-- Witness for C10: a one-player room; player id 2 is not in it. -/
theorem unknown_player_ids_silent_noop_witness :
    jget (runEvents [Event.connect 1,
      Event.message 1 "AAAAAA" "10:00:00 AM" (some ClientMessage.createRoom)]).conns 1 =
        some ⟨1, some "AAAAAA"⟩ ∧
    stepEv (runEvents [Event.connect 1,
      Event.message 1 "AAAAAA" "10:00:00 AM" (some ClientMessage.createRoom)])
      (Event.message 1 "" "10:00:01 AM" (some (ClientMessage.updateLife 2 7))) =
      (runEvents [Event.connect 1,
        Event.message 1 "AAAAAA" "10:00:00 AM" (some ClientMessage.createRoom)], []) := by
  constructor
  · decide
  · have h := unknown_player_ids_silent_noop
      (runEvents [Event.connect 1,
        Event.message 1 "AAAAAA" "10:00:00 AM" (some ClientMessage.createRoom)])
      1 ⟨1, some "AAAAAA"⟩ "AAAAAA"
      { players := [{ id := 1, name := "Player 1", life := 40, color := "#FF6B6B",
                      commanderDamage := [], ws := 1 }],
        gameLog := [⟨"10:00:00 AM", "Player 1 created the game"⟩] }
      (by decide) (by decide) (by decide)
    exact h.1 2 7 "" "10:00:01 AM" (by decide)

/-! ## C5: bounded FIFO log -/

/-- C5: `addToLog` pushes the {time, message} record at the end of the log;
a log within the 50-entry bound stays within it (so the log of any room
never exceeds 50 entries); and over 51 appends starting from an empty log
exactly the oldest record is evicted: the first-appended entry is gone and
the last-appended entry is present. -/
theorem log_append_bounded_fifo :
    (∀ (log : List LogEntry) (e : LogEntry), (addToLog log e).getLast? = some e) ∧
    (∀ (log : List LogEntry) (e : LogEntry), log.length ≤ 50 →
        (addToLog log e).length ≤ 50) ∧
    (∀ es : List LogEntry, (es.foldl addToLog []).length ≤ 50) ∧
    (∀ (first last : LogEntry) (mid : List LogEntry), mid.length = 49 →
        first ∉ mid → first ≠ last →
        (first :: (mid ++ [last])).foldl addToLog [] = mid ++ [last] ∧
        first ∉ (first :: (mid ++ [last])).foldl addToLog [] ∧
        last ∈ (first :: (mid ++ [last])).foldl addToLog []) := by
  refine ⟨addToLog_getLast, fun log e h => addToLog_length_le e h, ?_, ?_⟩
  · intro es
    rw [foldl_addToLog_drop es [] (by simp)]
    simp only [List.nil_append, List.length_drop]
    omega
  · intro first last mid hmid hfm hfl
    have hfold : (first :: (mid ++ [last])).foldl addToLog [] = mid ++ [last] := by
      rw [foldl_addToLog_drop _ [] (by simp)]
      simp [hmid]
    refine ⟨hfold, ?_, ?_⟩
    · rw [hfold]
      simp only [List.mem_append, List.mem_singleton]
      rintro (h | h)
      · exact hfm h
      · exact hfl h
    · rw [hfold]
      simp

/-- Witness for C5: a 51-entry append sequence with distinct first and last
entries; the fold keeps exactly the last 50 of them. -/
theorem log_append_bounded_fifo_witness :
    (([] : List LogEntry).length ≤ 50 ∧ (addToLog [] ⟨"t", "a"⟩).length ≤ 50) ∧
    ((List.replicate 49 (⟨"t", "c"⟩ : LogEntry)).length = 49 ∧
      (⟨"t", "a"⟩ : LogEntry) ∉ List.replicate 49 (⟨"t", "c"⟩ : LogEntry) ∧
      (⟨"t", "a"⟩ : LogEntry) ≠ ⟨"t", "b"⟩ ∧
      (⟨"t", "a"⟩ : LogEntry) ∉
        ((⟨"t", "a"⟩ : LogEntry) ::
          (List.replicate 49 (⟨"t", "c"⟩ : LogEntry) ++ [⟨"t", "b"⟩])).foldl addToLog [] ∧
      (⟨"t", "b"⟩ : LogEntry) ∈
        ((⟨"t", "a"⟩ : LogEntry) ::
          (List.replicate 49 (⟨"t", "c"⟩ : LogEntry) ++ [⟨"t", "b"⟩])).foldl addToLog []) :=
  ⟨⟨by decide, log_append_bounded_fifo.2.1 [] ⟨"t", "a"⟩ (by decide)⟩,
   by decide, by decide, by decide,
   (log_append_bounded_fifo.2.2.2 ⟨"t", "a"⟩ ⟨"t", "b"⟩
      (List.replicate 49 ⟨"t", "c"⟩) (by decide) (by decide) (by decide)).2.1,
   (log_append_bounded_fifo.2.2.2 ⟨"t", "a"⟩ ⟨"t", "b"⟩
      (List.replicate 49 ⟨"t", "c"⟩) (by decide) (by decide) (by decide)).2.2⟩

theorem roomAddToLog_jset {rooms : List (String × Room)} {code : String} {room : Room}
    (now msg : String) :
    roomAddToLog (jset rooms code room) code now msg =
      jset rooms code { room with gameLog := addToLog room.gameLog ⟨now, msg⟩ } := by
  unfold roomAddToLog
  rw [jget_jset_self]
  show jset (jset rooms code room) code _ = _
  rw [jset_jset_self]

theorem ucdTarget_id (t : Player) (sid : Nat) (dmg : Int) :
    (ucdTarget t sid dmg).id = t.id := rfl

theorem ucdTarget_idem (t : Player) (sid : Nat) (dmg : Int) :
    ucdTarget (ucdTarget t sid dmg) sid dmg = ucdTarget t sid dmg := by
  unfold ucdTarget ucdNewLife
  simp [jget_jset_self, jset_jset_self]

/-- What UPDATE_COMMANDER_DAMAGE does to the state when both players are
found: the first player with the target id is replaced by `ucdTarget`, and
the game log may gain an entry. -/
theorem stepState_ucd_found
    {s : ServerState} {connId : Nat} {conn : Conn} {code : String} {room : Room}
    {sid tid : Nat} {dmg : Int} {newCode now : String} {target source : Player}
    (hconn : jget s.conns connId = some conn)
    (hcode : conn.currentRoomCode = some code)
    (hroom : jget s.rooms code = some room)
    (ht : findPlayer room.players tid = some target)
    (hs : findPlayer room.players sid = some source) :
    ∃ gl, stepState s (Event.message connId newCode now
        (some (ClientMessage.updateCommanderDamage sid tid dmg))) =
      { s with rooms := jset s.rooms code
                  { room with
                    players :=
                      updateFirst (fun _ => ucdTarget target sid dmg) tid room.players,
                    gameLog := gl } } := by
  simp only [stepState, stepEv, handleMessage, handleUpdateCommanderDamage,
    hconn, hcode, hroom, ht, hs]
  split_ifs with h1 h2
  · exact ⟨_, by rw [roomAddToLog_jset]⟩
  · exact ⟨_, by rw [roomAddToLog_jset]⟩
  · exact ⟨room.gameLog, rfl⟩

theorem ucdTarget_cd (t : Player) (sid : Nat) (dmg : Int) :
    (ucdTarget t sid dmg).commanderDamage = jset t.commanderDamage sid dmg := rfl

/-! ## C3: idempotence of UPDATE_COMMANDER_DAMAGE -/

/-- C3: when both the source and the target player exist in the sender's
room, processing the same (sourcePlayerId, targetPlayerId, damage) message
a second time leaves the state exactly as after the first processing: the
stored damage map is unchanged and the target's life changes by 0. -/
theorem commander_damage_idempotent
    (s : ServerState) (connId : Nat) (conn : Conn) (code : String) (room : Room)
    (sid tid : Nat) (dmg : Int) (newCode newCode2 now now2 : String)
    (target source : Player)
    (hconn : jget s.conns connId = some conn)
    (hcode : conn.currentRoomCode = some code)
    (hroom : jget s.rooms code = some room)
    (ht : findPlayer room.players tid = some target)
    (hs : findPlayer room.players sid = some source) :
    stepState (stepState s (Event.message connId newCode now
        (some (ClientMessage.updateCommanderDamage sid tid dmg))))
      (Event.message connId newCode2 now2
        (some (ClientMessage.updateCommanderDamage sid tid dmg))) =
      stepState s (Event.message connId newCode now
        (some (ClientMessage.updateCommanderDamage sid tid dmg))) := by
  obtain ⟨gl, h1⟩ := @stepState_ucd_found s connId conn code room sid tid dmg
    newCode now target source hconn hcode hroom ht hs
  rw [h1]
  have htid : target.id = tid := (findPlayer_some ht).2
  have hid : (ucdTarget target sid dmg).id = tid := by rw [ucdTarget_id]; exact htid
  have ht' : findPlayer
      (updateFirst (fun _ => ucdTarget target sid dmg) tid room.players) tid =
      some (ucdTarget target sid dmg) := findPlayer_updateFirst_const ht hid
  have hs' : ∃ source1, findPlayer
      (updateFirst (fun _ => ucdTarget target sid dmg) tid room.players) sid =
      some source1 := by
    by_cases hst : sid = tid
    · subst hst
      exact ⟨_, ht'⟩
    · exact ⟨source, by rw [findPlayer_updateFirst_ne hid hst, hs]⟩
  obtain ⟨source1, hs'⟩ := hs'
  simp only [stepState, stepEv, handleMessage, handleUpdateCommanderDamage,
    hconn, hcode, jget_jset_self, ht', hs', ucdTarget_cd, ucdTarget_idem,
    Option.getD_some, sub_self, lt_self_iff_false, if_false, gt_iff_lt,
    updateFirst_const_idem hid, jset_jset_self]

/-- Witness for C3 at a concrete two-player room: player 1 deals 3
commander damage to player 2, twice. -/
theorem commander_damage_idempotent_witness :
    (jget (runEvents twoPlayerEvents).conns 1 = some ⟨1, some "AAAAAA"⟩ ∧
     jget (runEvents twoPlayerEvents).rooms "AAAAAA" = some twoPlayerRoom ∧
     findPlayer twoPlayerRoom.players 2 =
       some { id := 2, name := "Player 2", life := 40, color := "#4ECDC4",
              commanderDamage := [], ws := 2 } ∧
     findPlayer twoPlayerRoom.players 1 =
       some { id := 1, name := "Player 1", life := 40, color := "#FF6B6B",
              commanderDamage := [], ws := 1 }) ∧
    stepState (stepState (runEvents twoPlayerEvents) (Event.message 1 "" "10:00:02 AM"
        (some (ClientMessage.updateCommanderDamage 1 2 3))))
      (Event.message 1 "" "10:00:03 AM"
        (some (ClientMessage.updateCommanderDamage 1 2 3))) =
      stepState (runEvents twoPlayerEvents) (Event.message 1 "" "10:00:02 AM"
        (some (ClientMessage.updateCommanderDamage 1 2 3))) :=
  ⟨⟨by decide, by decide, by decide, by decide⟩,
   commander_damage_idempotent (runEvents twoPlayerEvents) 1 ⟨1, some "AAAAAA"⟩ "AAAAAA"
     twoPlayerRoom 1 2 3 "" "" "10:00:02 AM" "10:00:03 AM"
     { id := 2, name := "Player 2", life := 40, color := "#4ECDC4",
       commanderDamage := [], ws := 2 }
     { id := 1, name := "Player 1", life := 40, color := "#FF6B6B",
       commanderDamage := [], ws := 1 }
     (by decide) (by decide) (by decide) (by decide) (by decide)⟩

/-! ## C4: UPDATE_COMMANDER_DAMAGE functional correctness -/

/-- C4 counterexample: in room AAAAAA player 2's life is -5 (set by
UPDATE_LIFE) with no stored damage, and player 1 exists; processing
UPDATE_COMMANDER_DAMAGE(source 1, target 2, damage 0) stores damage 0 but
leaves the life at -5, while the claimed formula (life reduced by the
signed difference, clamped so it is never below 0) demands max 0 (-5-0)=0. -/
theorem commander_damage_clamp_counterexample :
    ((jget (runEvents (cexClampEvents.take 5)).rooms "AAAAAA").bind
        fun room => (findPlayer room.players 2).map fun t =>
          (t.life, jget t.commanderDamage 1)) = some (-5, none) ∧
    ((jget (runEvents (cexClampEvents.take 5)).rooms "AAAAAA").bind
        fun room => (findPlayer room.players 1).map fun p => p.id) = some 1 ∧
    ((jget (runEvents cexClampEvents).rooms "AAAAAA").bind
        fun room => (findPlayer room.players 2).map fun t =>
          (t.life, jget t.commanderDamage 1)) = some (-5, some 0) ∧
    (-5 : Int) ≠ max 0 ((-5 : Int) - ((0 : Int) - 0)) :=
  ⟨by decide, by decide, by decide, by decide⟩

/-- C4 (amended): when both players exist in the sender's room and the
target's life is non-negative before the update, the target's stored
damage from the source becomes the new damage value and its life becomes
the old life minus the signed damage difference, clamped at 0.  (When the
prior life is negative and the difference is 0, the code skips the clamp;
see the counterexample.) -/
theorem commander_damage_update_clamped
    (s : ServerState) (connId : Nat) (conn : Conn) (code : String) (room : Room)
    (sid tid : Nat) (dmg : Int) (newCode now : String) (target source : Player)
    (hconn : jget s.conns connId = some conn)
    (hcode : conn.currentRoomCode = some code)
    (hroom : jget s.rooms code = some room)
    (ht : findPlayer room.players tid = some target)
    (hs : findPlayer room.players sid = some source)
    (hlife : 0 ≤ target.life) :
    ∃ (room1 : Room) (t1 : Player),
      jget (stepState s (Event.message connId newCode now
          (some (ClientMessage.updateCommanderDamage sid tid dmg)))).rooms code =
        some room1 ∧
      findPlayer room1.players tid = some t1 ∧
      jget t1.commanderDamage sid = some dmg ∧
      t1.life = max 0 (target.life - (dmg - (jget target.commanderDamage sid).getD 0)) := by
  obtain ⟨gl, h1⟩ := @stepState_ucd_found s connId conn code room sid tid dmg
    newCode now target source hconn hcode hroom ht hs
  have htid : target.id = tid := (findPlayer_some ht).2
  have hid : (ucdTarget target sid dmg).id = tid := by rw [ucdTarget_id]; exact htid
  refine ⟨{ room with
            players := updateFirst (fun _ => ucdTarget target sid dmg) tid room.players,
            gameLog := gl },
          ucdTarget target sid dmg, ?_, ?_, ?_, ?_⟩
  · rw [h1]
    exact jget_jset_self ..
  · exact findPlayer_updateFirst_const ht hid
  · rw [ucdTarget_cd]
    exact jget_jset_self ..
  · show ucdNewLife target sid dmg = _
    unfold ucdNewLife
    by_cases h : dmg - (jget target.commanderDamage sid).getD 0 = 0
    · simp only [h, ne_eq, not_true_eq_false, if_false, sub_zero, not_false_eq_true]
      exact (max_eq_right hlife).symm
    · simp only [ne_eq, h, not_false_eq_true, if_true]

/-- Witness for C4 in the two-player room: player 1 deals 3 damage to
player 2 whose life is 40; the stored damage is 3 and the life 37. -/
theorem commander_damage_update_clamped_witness :
    (jget (runEvents twoPlayerEvents).conns 1 = some ⟨1, some "AAAAAA"⟩ ∧
     jget (runEvents twoPlayerEvents).rooms "AAAAAA" = some twoPlayerRoom ∧
     (0 : Int) ≤ 40) ∧
    ∃ (room1 : Room) (t1 : Player),
      jget (stepState (runEvents twoPlayerEvents) (Event.message 1 "" "10:00:02 AM"
          (some (ClientMessage.updateCommanderDamage 1 2 3)))).rooms "AAAAAA" =
        some room1 ∧
      findPlayer room1.players 2 = some t1 ∧
      jget t1.commanderDamage 1 = some 3 ∧
      t1.life = max 0 ((40 : Int) - (3 - (jget ([] : List (Nat × Int)) 1).getD 0)) :=
  ⟨⟨by decide, by decide, by decide⟩,
   commander_damage_update_clamped (runEvents twoPlayerEvents) 1 ⟨1, some "AAAAAA"⟩ "AAAAAA"
     twoPlayerRoom 1 2 3 "" "10:00:02 AM"
     { id := 2, name := "Player 2", life := 40, color := "#4ECDC4",
       commanderDamage := [], ws := 2 }
     { id := 1, name := "Player 1", life := 40, color := "#FF6B6B",
       commanderDamage := [], ws := 1 }
     (by decide) (by decide) (by decide) (by decide) (by decide) (by decide)⟩

/-! ## C6: disconnect removes the player, empty rooms are deleted -/

/-- C6: when the disconnecting connection is the last remaining player of
its room, the room is removed from the registry and a subsequent JOIN_ROOM
for its code gets Error "Room not found"; when other players remain, the
room survives with exactly the disconnecting player filtered out. -/
theorem disconnect_removes_player_and_empty_room
    (s : ServerState) (connId : Nat) (conn : Conn) (code : String) (room : Room)
    (now : String)
    (hconn : jget s.conns connId = some conn)
    (hcode : conn.currentRoomCode = some code)
    (hroom : jget s.rooms code = some room) :
    ((∀ p ∈ room.players, p.id = conn.playerId) →
      jget (stepState s (Event.close connId now)).rooms code = none ∧
      ∀ (connId2 : Nat) (conn2 : Conn) (newCode2 now2 : String),
        jget (stepState s (Event.close connId now)).conns connId2 = some conn2 →
        stepEv (stepState s (Event.close connId now))
          (Event.message connId2 newCode2 now2 (some (ClientMessage.joinRoom code))) =
          (stepState s (Event.close connId now),
           [(connId2, ServerMessage.error "Room not found")])) ∧
    ((∃ q ∈ room.players, q.id ≠ conn.playerId) →
      ∃ room1, jget (stepState s (Event.close connId now)).rooms code = some room1 ∧
        room1.players = room.players.filter (fun p => p.id ≠ conn.playerId)) := by
  constructor
  · intro hlast
    have hclose : stepState s (Event.close connId now) =
        { s with rooms := jdel s.rooms code, conns := jdel s.conns connId } := by
      simp [stepState, stepEv, handleClose, hconn, hcode, hroom]
      rw [if_pos hlast]
    constructor
    · rw [hclose]
      exact jget_jdel_self ..
    · intro connId2 conn2 newCode2 now2 hconn2
      have hnone : jget (stepState s (Event.close connId now)).rooms code = none := by
        rw [hclose]
        exact jget_jdel_self ..
      simp [stepEv, handleMessage, hconn2, handleJoinRoom, hnone]
  · intro ⟨q, hq, hqne⟩
    have hmem : q ∈ room.players.filter (fun p => p.id ≠ conn.playerId) :=
      List.mem_filter.2 ⟨hq, by simpa using hqne⟩
    have hne : ¬ (room.players.filter (fun p => p.id ≠ conn.playerId)).length = 0 := by
      intro h0
      rw [List.length_eq_zero] at h0
      rw [h0] at hmem
      exact absurd hmem (List.not_mem_nil q)
    simp only [stepState, stepEv, handleClose, hconn, hcode, hroom]
    rw [if_neg hne, roomAddToLog_jset]
    exact ⟨_, jget_jset_self .., rfl⟩

/-- Witness for C6: closing the only player of room CCCCCC deletes it and a
later join gets "Room not found"; closing player 2 of the two-player room
AAAAAA leaves player 1 behind. -/
theorem disconnect_removes_player_and_empty_room_witness :
    jget (runEvents [Event.connect 1, Event.connect 2,
        Event.message 1 "CCCCCC" "10:00:00 AM" (some ClientMessage.createRoom)]).rooms
      "CCCCCC" =
      some { players := [{ id := 1, name := "Player 1", life := 40, color := "#FF6B6B",
                           commanderDamage := [], ws := 1 }],
             gameLog := [⟨"10:00:00 AM", "Player 1 created the game"⟩] } ∧
    jget (stepState (runEvents [Event.connect 1, Event.connect 2,
        Event.message 1 "CCCCCC" "10:00:00 AM" (some ClientMessage.createRoom)])
        (Event.close 1 "10:00:01 AM")).rooms "CCCCCC" = none ∧
    stepEv (stepState (runEvents [Event.connect 1, Event.connect 2,
        Event.message 1 "CCCCCC" "10:00:00 AM" (some ClientMessage.createRoom)])
        (Event.close 1 "10:00:01 AM"))
      (Event.message 2 "" "10:00:02 AM" (some (ClientMessage.joinRoom "CCCCCC"))) =
      (stepState (runEvents [Event.connect 1, Event.connect 2,
        Event.message 1 "CCCCCC" "10:00:00 AM" (some ClientMessage.createRoom)])
        (Event.close 1 "10:00:01 AM"),
       [(2, ServerMessage.error "Room not found")]) ∧
    (∃ room1,
      jget (stepState (runEvents twoPlayerEvents) (Event.close 2 "10:00:02 AM")).rooms
        "AAAAAA" = some room1 ∧
      room1.players = twoPlayerRoom.players.filter (fun p => p.id ≠ 2)) := by
  have hA := disconnect_removes_player_and_empty_room
    (runEvents [Event.connect 1, Event.connect 2,
      Event.message 1 "CCCCCC" "10:00:00 AM" (some ClientMessage.createRoom)])
    1 ⟨1, some "CCCCCC"⟩ "CCCCCC"
    { players := [{ id := 1, name := "Player 1", life := 40, color := "#FF6B6B",
                    commanderDamage := [], ws := 1 }],
      gameLog := [⟨"10:00:00 AM", "Player 1 created the game"⟩] }
    "10:00:01 AM" (by decide) (by decide) (by decide)
  have hB := disconnect_removes_player_and_empty_room
    (runEvents twoPlayerEvents) 2 ⟨2, some "AAAAAA"⟩ "AAAAAA" twoPlayerRoom
    "10:00:02 AM" (by decide) (by decide) (by decide)
  refine ⟨by decide, (hA.1 (by decide)).1, ?_, ?_⟩
  · exact (hA.1 (by decide)).2 2 ⟨2, none⟩ "" "10:00:02 AM" (by decide)
  · exact hB.2 ⟨{ id := 1, name := "Player 1", life := 40, color := "#FF6B6B",
                  commanderDamage := [], ws := 1 }, by decide, by decide⟩

/-! ## How a step transforms the player lists of rooms -/

theorem mem_ite_roomAddToLog {c1 c2 : Prop} [Decidable c1] [Decidable c2]
    {r : List (String × Room)} {code n1 m1 n2 m2 : String} {e : String × Room}
    (he : e ∈ (if c1 then roomAddToLog r code n1 m1
               else if c2 then roomAddToLog r code n2 m2 else r)) :
    ∃ e' ∈ r, e.1 = e'.1 ∧ e.2.players = e'.2.players := by
  split_ifs at he
  · exact mem_roomAddToLog he
  · exact mem_roomAddToLog he
  · exact ⟨e, he, rfl, rfl⟩

/-- Every room entry after one event step is, as far as its player list is
concerned, one of: an untouched old entry; a fresh one-player room; an old
room with a fresh player appended (only when it had fewer than 6 players);
an old room with one player's life set by an UPDATE_LIFE payload; an old
room with one player hit by `ucdTarget`; an old room with one player
renamed; an old room fully reset; or an old room with one player id
filtered out. -/
theorem mem_stepState_rooms (s : ServerState) (ev : Event) {e : String × Room}
    (he : e ∈ (stepState s ev).rooms) :
    (∃ e' ∈ s.rooms, e.2.players = e'.2.players) ∨
    (∃ p : Player, p.life = 40 ∧ p.commanderDamage = [] ∧ e.2.players = [p]) ∨
    (∃ e' ∈ s.rooms, ∃ p : Player, e'.2.players.length < 6 ∧ p.life = 40 ∧
        p.commanderDamage = [] ∧ e.2.players = e'.2.players ++ [p]) ∨
    (∃ e' ∈ s.rooms, ∃ (pid : Nat) (l : Int) (cid : Nat) (nc mnow : String),
        ev = Event.message cid nc mnow (some (ClientMessage.updateLife pid l)) ∧
        e.2.players = updateFirst (fun p => { p with life := l }) pid e'.2.players) ∨
    (∃ e' ∈ s.rooms, ∃ (sid tid : Nat) (dmg : Int) (target : Player)
        (cid : Nat) (nc mnow : String),
        ev = Event.message cid nc mnow
          (some (ClientMessage.updateCommanderDamage sid tid dmg)) ∧
        findPlayer e'.2.players tid = some target ∧
        e.2.players = updateFirst (fun _ => ucdTarget target sid dmg) tid e'.2.players) ∨
    (∃ e' ∈ s.rooms, ∃ (pid : Nat) (nm : String),
        e.2.players = updateFirst (fun p => { p with name := nm }) pid e'.2.players) ∨
    (∃ e' ∈ s.rooms,
        e.2.players = e'.2.players.map fun p => { p with life := 40, commanderDamage := [] }) ∨
    (∃ e' ∈ s.rooms, ∃ pid : Nat,
        e.2.players = e'.2.players.filter fun p => p.id ≠ pid) := by
  cases ev with
  | connect connId =>
    have hrooms : (stepState s (Event.connect connId)).rooms = s.rooms := by
      simp only [stepState, stepEv, handleConnect]
      cases jget s.conns connId <;> rfl
    rw [hrooms] at he
    exact Or.inl ⟨e, he, rfl⟩
  | message connId nc mnow data =>
    rcases hc : jget s.conns connId with _ | conn
    · simp only [stepState, stepEv, handleMessage, hc] at he
      exact Or.inl ⟨e, he, rfl⟩
    · cases data with
      | none =>
        simp only [stepState, stepEv, handleMessage, hc] at he
        exact Or.inl ⟨e, he, rfl⟩
      | some m =>
        cases m with
        | createRoom =>
          simp only [stepState, stepEv, handleMessage, hc, handleCreateRoom] at he
          obtain ⟨e', he', -, hp⟩ := mem_roomAddToLog he
          rcases mem_jset he' with heq | hmem
          · refine Or.inr (Or.inl
              ⟨{ id := conn.playerId, name := "Player 1", life := 40,
                 color := playerColors.getD 0 "", commanderDamage := [], ws := connId },
               rfl, rfl, ?_⟩)
            rw [hp, heq]
          · exact Or.inl ⟨e', hmem, hp⟩
        | joinRoom code =>
          rcases hr : jget s.rooms code with _ | room
          · simp only [stepState, stepEv, handleMessage, hc, handleJoinRoom, hr] at he
            exact Or.inl ⟨e, he, rfl⟩
          · by_cases hfull : room.players.length ≥ 6
            · simp only [stepState, stepEv, handleMessage, hc, handleJoinRoom, hr,
                if_pos hfull] at he
              exact Or.inl ⟨e, he, rfl⟩
            · simp only [stepState, stepEv, handleMessage, hc, handleJoinRoom, hr,
                if_neg hfull] at he
              obtain ⟨e', he', -, hp⟩ := mem_roomAddToLog he
              rcases mem_jset he' with heq | hmem
              · refine Or.inr (Or.inr (Or.inl
                  ⟨(code, room), jget_mem hr,
                   { id := conn.playerId,
                     name := "Player " ++ toString (room.players.length + 1),
                     life := 40, color := playerColors.getD room.players.length "",
                     commanderDamage := [], ws := connId },
                   not_le.mp hfull, rfl, rfl, ?_⟩))
                rw [hp, heq]
              · exact Or.inl ⟨e', hmem, hp⟩
        | updateLife pid l =>
          rcases hcc : conn.currentRoomCode with _ | code
          · simp only [stepState, stepEv, handleMessage, hc, handleUpdateLife, hcc] at he
            exact Or.inl ⟨e, he, rfl⟩
          · rcases hr : jget s.rooms code with _ | room
            · simp only [stepState, stepEv, handleMessage, hc, handleUpdateLife, hcc,
                hr] at he
              exact Or.inl ⟨e, he, rfl⟩
            · rcases hf : findPlayer room.players pid with _ | player
              · simp only [stepState, stepEv, handleMessage, hc, handleUpdateLife, hcc,
                  hr, hf] at he
                exact Or.inl ⟨e, he, rfl⟩
              · simp only [stepState, stepEv, handleMessage, hc, handleUpdateLife, hcc,
                  hr, hf] at he
                obtain ⟨e', he', -, hp⟩ := mem_roomAddToLog he
                rcases mem_jset he' with heq | hmem
                · refine Or.inr (Or.inr (Or.inr (Or.inl
                    ⟨(code, room), jget_mem hr, pid, l, connId, nc, mnow, rfl, ?_⟩)))
                  rw [hp, heq]
                · exact Or.inl ⟨e', hmem, hp⟩
        | updateCommanderDamage sid tid dmg =>
          rcases hcc : conn.currentRoomCode with _ | code
          · simp only [stepState, stepEv, handleMessage, hc,
              handleUpdateCommanderDamage, hcc] at he
            exact Or.inl ⟨e, he, rfl⟩
          · rcases hr : jget s.rooms code with _ | room
            · simp only [stepState, stepEv, handleMessage, hc,
                handleUpdateCommanderDamage, hcc, hr] at he
              exact Or.inl ⟨e, he, rfl⟩
            · rcases hft : findPlayer room.players tid with _ | target
              · simp only [stepState, stepEv, handleMessage, hc,
                  handleUpdateCommanderDamage, hcc, hr, hft] at he
                exact Or.inl ⟨e, he, rfl⟩
              · rcases hfs : findPlayer room.players sid with _ | source
                · simp only [stepState, stepEv, handleMessage, hc,
                    handleUpdateCommanderDamage, hcc, hr, hft, hfs] at he
                  exact Or.inl ⟨e, he, rfl⟩
                · simp only [stepState, stepEv, handleMessage, hc,
                    handleUpdateCommanderDamage, hcc, hr, hft, hfs] at he
                  obtain ⟨e', he', -, hp⟩ := mem_ite_roomAddToLog he
                  rcases mem_jset he' with heq | hmem
                  · refine Or.inr (Or.inr (Or.inr (Or.inr (Or.inl
                      ⟨(code, room), jget_mem hr, sid, tid, dmg, target,
                        connId, nc, mnow, rfl, hft, ?_⟩))))
                    rw [hp, heq]
                  · exact Or.inl ⟨e', hmem, hp⟩
        | updateName pid nm =>
          rcases hcc : conn.currentRoomCode with _ | code
          · simp only [stepState, stepEv, handleMessage, hc, handleUpdateName, hcc] at he
            exact Or.inl ⟨e, he, rfl⟩
          · rcases hr : jget s.rooms code with _ | room
            · simp only [stepState, stepEv, handleMessage, hc, handleUpdateName, hcc,
                hr] at he
              exact Or.inl ⟨e, he, rfl⟩
            · rcases hf : findPlayer room.players pid with _ | player
              · simp only [stepState, stepEv, handleMessage, hc, handleUpdateName, hcc,
                  hr, hf] at he
                exact Or.inl ⟨e, he, rfl⟩
              · simp only [stepState, stepEv, handleMessage, hc, handleUpdateName, hcc,
                  hr, hf] at he
                obtain ⟨e', he', -, hp⟩ := mem_roomAddToLog he
                rcases mem_jset he' with heq | hmem
                · refine Or.inr (Or.inr (Or.inr (Or.inr (Or.inr (Or.inl
                    ⟨(code, room), jget_mem hr, pid, nm, ?_⟩)))))
                  rw [hp, heq]
                · exact Or.inl ⟨e', hmem, hp⟩
        | resetGame =>
          rcases hcc : conn.currentRoomCode with _ | code
          · simp only [stepState, stepEv, handleMessage, hc, handleResetGame, hcc] at he
            exact Or.inl ⟨e, he, rfl⟩
          · rcases hr : jget s.rooms code with _ | room
            · simp only [stepState, stepEv, handleMessage, hc, handleResetGame, hcc,
                hr] at he
              exact Or.inl ⟨e, he, rfl⟩
            · simp only [stepState, stepEv, handleMessage, hc, handleResetGame, hcc,
                hr] at he
              obtain ⟨e', he', -, hp⟩ := mem_roomAddToLog he
              rcases mem_jset he' with heq | hmem
              · refine Or.inr (Or.inr (Or.inr (Or.inr (Or.inr (Or.inr (Or.inl
                  ⟨(code, room), jget_mem hr, ?_⟩))))))
                rw [hp, heq]
              · exact Or.inl ⟨e', hmem, hp⟩
        | unknown t =>
          simp only [stepState, stepEv, handleMessage, hc] at he
          exact Or.inl ⟨e, he, rfl⟩
  | close connId cnow =>
    rcases hc : jget s.conns connId with _ | conn
    · simp only [stepState, stepEv, handleClose, hc] at he
      exact Or.inl ⟨e, he, rfl⟩
    · rcases hcc : conn.currentRoomCode with _ | code
      · simp only [stepState, stepEv, handleClose, hc, hcc] at he
        exact Or.inl ⟨e, he, rfl⟩
      · rcases hr : jget s.rooms code with _ | room
        · simp only [stepState, stepEv, handleClose, hc, hcc, hr] at he
          exact Or.inl ⟨e, he, rfl⟩
        · by_cases hz :
            (room.players.filter (fun p => p.id ≠ conn.playerId)).length = 0
          · simp only [stepState, stepEv, handleClose, hc, hcc, hr, if_pos hz] at he
            exact Or.inl ⟨e, mem_jdel he, rfl⟩
          · simp only [stepState, stepEv, handleClose, hc, hcc, hr, if_neg hz] at he
            obtain ⟨e', he', -, hp⟩ := mem_roomAddToLog he
            rcases mem_jset he' with heq | hmem
            · refine Or.inr (Or.inr (Or.inr (Or.inr (Or.inr (Or.inr (Or.inr
                ⟨(code, room), jget_mem hr, conn.playerId, ?_⟩))))))
              rw [hp, heq]
            · exact Or.inl ⟨e', hmem, hp⟩

/-! ## C1: room capacity -/

/-- C1: over every event sequence every room holds at most 6 players, and a
JOIN_ROOM for a room that already has 6 players is answered with Error
"Room is full" while the whole state (in particular that room's player
list) is left unchanged. -/
theorem room_capacity_six
    : (∀ es : List Event, ∀ e ∈ (runEvents es).rooms, e.2.players.length ≤ 6) ∧
      (∀ (s : ServerState) (connId : Nat) (conn : Conn) (code : String) (room : Room)
          (nc nw : String),
          jget s.conns connId = some conn →
          jget s.rooms code = some room →
          room.players.length = 6 →
          stepEv s (Event.message connId nc nw (some (ClientMessage.joinRoom code))) =
            (s, [(connId, ServerMessage.error "Room is full")])) := by
  constructor
  · have step : ∀ (s : ServerState) (ev : Event),
        (∀ e ∈ s.rooms, e.2.players.length ≤ 6) →
        ∀ e ∈ (stepState s ev).rooms, e.2.players.length ≤ 6 := by
      intro s ev h e he
      rcases mem_stepState_rooms s ev he with
        ⟨e', he', hp⟩ | ⟨p, -, -, hp⟩ | ⟨e', he', p, hlt, -, -, hp⟩ |
        ⟨e', he', pid, l, cid, nc2, mn, -, hp⟩ |
        ⟨e', he', sid, tid, dmg, tg, cid, nc2, mn, -, -, hp⟩ |
        ⟨e', he', pid, nm, hp⟩ | ⟨e', he', hp⟩ | ⟨e', he', pid, hp⟩
      · rw [hp]; exact h e' he'
      · rw [hp]; simp
      · rw [hp]
        simp only [List.length_append, List.length_cons, List.length_nil]
        omega
      · rw [hp, length_updateFirst]; exact h e' he'
      · rw [hp, length_updateFirst]; exact h e' he'
      · rw [hp, length_updateFirst]; exact h e' he'
      · rw [hp, List.length_map]; exact h e' he'
      · rw [hp]; exact le_trans (List.length_filter_le _ _) (h e' he')
    intro es
    suffices hgen : ∀ (l : List Event) (s0 : ServerState),
        (∀ e ∈ s0.rooms, e.2.players.length ≤ 6) →
        ∀ e ∈ (l.foldl stepState s0).rooms, e.2.players.length ≤ 6 by
      exact hgen es initState (by simp [initState])
    intro l
    induction l with
    | nil => intro s0 h0; exact h0
    | cons ev rest ih =>
      intro s0 h0
      exact ih _ (step s0 ev h0)
  · intro s connId conn code room nc nw hconn hroom h6
    have hfull : room.players.length ≥ 6 := le_of_eq h6.symm
    simp [stepEv, handleMessage, hconn, handleJoinRoom, hroom, if_pos hfull]


/-- Witness for C1: the full room AAAAAA (6 players) refuses connection 7's
join attempt with "Room is full", leaving the state unchanged. -/
theorem room_capacity_six_witness :
    (jget fullState.conns 7 = some ⟨7, none⟩ ∧
     jget fullState.rooms "AAAAAA" = some fullRoom ∧
     fullRoom.players.length = 6) ∧
    stepEv fullState
      (Event.message 7 "" "10:00:00 AM" (some (ClientMessage.joinRoom "AAAAAA"))) =
      (fullState, [(7, ServerMessage.error "Room is full")]) :=
  ⟨⟨by decide, by decide, by decide⟩,
   room_capacity_six.2 fullState 7 ⟨7, none⟩ "AAAAAA" fullRoom "" "10:00:00 AM"
     (by decide) (by decide) (by decide)⟩

/-! ## C2: life totals -/

theorem ucdNewLife_nonneg {t : Player} (sid : Nat) (dmg : Int) (h : 0 ≤ t.life) :
    0 ≤ ucdNewLife t sid dmg := by
  unfold ucdNewLife
  simp only []
  split_ifs
  · exact le_max_left 0 _
  · exact h

/-- C2 counterexample: UPDATE_LIFE(-5) on the room creator ends with a
stored life of -5, so lives are not always ≥ 0 under arbitrary inputs. -/
theorem life_nonneg_counterexample :
    ((jget (runEvents cexLifeEvents).rooms "AAAAAA").map
        fun room => room.players.map fun p => p.life) = some [-5] ∧
    ¬ (0 : Int) ≤ -5 :=
  ⟨by decide, by decide⟩

/-- C2 (amended): after any event sequence whose UPDATE_LIFE payloads are
all non-negative (the client always sends clamped values), every player's
life in every room is ≥ 0, for arbitrary commander-damage inputs. -/
theorem life_nonneg_of_clamped_inputs
    (es : List Event) (hes : ∀ ev ∈ es, eventLifeOK ev) :
    ∀ e ∈ (runEvents es).rooms, ∀ p ∈ e.2.players, 0 ≤ p.life := by
  have step : ∀ (s : ServerState) (ev : Event), eventLifeOK ev →
      (∀ e ∈ s.rooms, ∀ p ∈ e.2.players, 0 ≤ p.life) →
      ∀ e ∈ (stepState s ev).rooms, ∀ p ∈ e.2.players, 0 ≤ p.life := by
    intro s ev hok h e he p hp
    rcases mem_stepState_rooms s ev he with
      ⟨e', he', hpl⟩ | ⟨q, hq40, -, hpl⟩ | ⟨e', he', q, -, hq40, -, hpl⟩ |
      ⟨e', he', pid, l, cid, nc2, mn, hev, hpl⟩ |
      ⟨e', he', sid, tid, dmg, tg, cid, nc2, mn, hev, hft, hpl⟩ |
      ⟨e', he', pid, nm, hpl⟩ | ⟨e', he', hpl⟩ | ⟨e', he', pid, hpl⟩
    · rw [hpl] at hp
      exact h e' he' p hp
    · rw [hpl] at hp
      rcases List.mem_singleton.1 hp with rfl
      rw [hq40]
      norm_num
    · rw [hpl] at hp
      rcases List.mem_append.1 hp with hp | hp
      · exact h e' he' p hp
      · rcases List.mem_singleton.1 hp with rfl
        rw [hq40]
        norm_num
    · rw [hpl] at hp
      subst hev
      simp only [eventLifeOK] at hok
      rcases mem_updateFirst hp with hp | ⟨q, hq, rfl⟩
      · exact h e' he' p hp
      · exact hok
    · rw [hpl] at hp
      rcases mem_updateFirst hp with hp | ⟨q, hq, rfl⟩
      · exact h e' he' p hp
      · exact ucdNewLife_nonneg sid dmg (h e' he' tg (findPlayer_some hft).1)
    · rw [hpl] at hp
      rcases mem_updateFirst hp with hp | ⟨q, hq, rfl⟩
      · exact h e' he' p hp
      · exact h e' he' q hq
    · rw [hpl] at hp
      rcases List.mem_map.1 hp with ⟨q, hq, rfl⟩
      norm_num
    · rw [hpl] at hp
      exact h e' he' p (List.mem_of_mem_filter hp)
  suffices hgen : ∀ (l : List Event) (s0 : ServerState),
      (∀ ev ∈ l, eventLifeOK ev) →
      (∀ e ∈ s0.rooms, ∀ p ∈ e.2.players, 0 ≤ p.life) →
      ∀ e ∈ (l.foldl stepState s0).rooms, ∀ p ∈ e.2.players, 0 ≤ p.life by
    exact hgen es initState hes (by simp [initState])
  intro l
  induction l with
  | nil => intro s0 _ h0; exact h0
  | cons ev rest ih =>
    intro s0 hl h0
    exact ih _ (fun e hee => hl e (List.mem_cons_of_mem _ hee))
      (step s0 ev (hl ev (List.mem_cons_self _ _)) h0)

/-- Witness for the amended C2: a clamped UPDATE_LIFE (5) followed by a
negative commander-damage input still leaves every life ≥ 0. -/
theorem life_nonneg_of_clamped_inputs_witness :
    (∀ ev ∈ wLifeEvents, eventLifeOK ev) ∧
    (∀ e ∈ (runEvents wLifeEvents).rooms, ∀ p ∈ e.2.players, 0 ≤ p.life) := by
  have hes : ∀ ev ∈ wLifeEvents, eventLifeOK ev := by
    intro ev hev
    fin_cases hev <;> simp [eventLifeOK]
  exact ⟨hes, life_nonneg_of_clamped_inputs wLifeEvents hes⟩

/-! ## C8: commander-damage values -/

/-- C8 counterexample: UPDATE_COMMANDER_DAMAGE with damage -3 stores -3 in
the target's damage map, so stored values are not always non-negative
under arbitrary damage inputs. -/
theorem damage_nonneg_counterexample :
    ((jget (runEvents cexDamageEvents).rooms "AAAAAA").bind
        fun room => (findPlayer room.players 2).map fun t => t.commanderDamage) =
      some [(1, -3)] ∧
    ¬ (0 : Int) ≤ -3 :=
  ⟨by decide, by decide⟩

/-- C8 (amended): after any event sequence whose UPDATE_COMMANDER_DAMAGE
payloads are all non-negative, every value stored in any player's
commander-damage map is ≥ 0. -/
theorem damage_nonneg_of_nonneg_inputs
    (es : List Event) (hes : ∀ ev ∈ es, eventDamageOK ev) :
    ∀ e ∈ (runEvents es).rooms, ∀ p ∈ e.2.players, ∀ kv ∈ p.commanderDamage, 0 ≤ kv.2 := by
  have step : ∀ (s : ServerState) (ev : Event), eventDamageOK ev →
      (∀ e ∈ s.rooms, ∀ p ∈ e.2.players, ∀ kv ∈ p.commanderDamage, 0 ≤ kv.2) →
      ∀ e ∈ (stepState s ev).rooms, ∀ p ∈ e.2.players, ∀ kv ∈ p.commanderDamage, 0 ≤ kv.2 := by
    intro s ev hok h e he p hp kv hkv
    rcases mem_stepState_rooms s ev he with
      ⟨e', he', hpl⟩ | ⟨q, -, hq0, hpl⟩ | ⟨e', he', q, -, -, hq0, hpl⟩ |
      ⟨e', he', pid, l, cid, nc2, mn, hev, hpl⟩ |
      ⟨e', he', sid, tid, dmg, tg, cid, nc2, mn, hev, hft, hpl⟩ |
      ⟨e', he', pid, nm, hpl⟩ | ⟨e', he', hpl⟩ | ⟨e', he', pid, hpl⟩
    · rw [hpl] at hp
      exact h e' he' p hp kv hkv
    · rw [hpl] at hp
      rcases List.mem_singleton.1 hp with rfl
      rw [hq0] at hkv
      exact absurd hkv (List.not_mem_nil kv)
    · rw [hpl] at hp
      rcases List.mem_append.1 hp with hp | hp
      · exact h e' he' p hp kv hkv
      · rcases List.mem_singleton.1 hp with rfl
        rw [hq0] at hkv
        exact absurd hkv (List.not_mem_nil kv)
    · rw [hpl] at hp
      rcases mem_updateFirst hp with hp | ⟨q, hq, rfl⟩
      · exact h e' he' p hp kv hkv
      · exact h e' he' q hq kv hkv
    · rw [hpl] at hp
      subst hev
      simp only [eventDamageOK] at hok
      rcases mem_updateFirst hp with hp | ⟨q, hq, rfl⟩
      · exact h e' he' p hp kv hkv
      · rw [ucdTarget_cd] at hkv
        rcases mem_jset hkv with rfl | hkv
        · exact hok
        · exact h e' he' tg (findPlayer_some hft).1 kv hkv
    · rw [hpl] at hp
      rcases mem_updateFirst hp with hp | ⟨q, hq, rfl⟩
      · exact h e' he' p hp kv hkv
      · exact h e' he' q hq kv hkv
    · rw [hpl] at hp
      rcases List.mem_map.1 hp with ⟨q, hq, rfl⟩
      exact absurd hkv (List.not_mem_nil kv)
    · rw [hpl] at hp
      exact h e' he' p (List.mem_of_mem_filter hp) kv hkv
  suffices hgen : ∀ (l : List Event) (s0 : ServerState),
      (∀ ev ∈ l, eventDamageOK ev) →
      (∀ e ∈ s0.rooms, ∀ p ∈ e.2.players, ∀ kv ∈ p.commanderDamage, 0 ≤ kv.2) →
      ∀ e ∈ (l.foldl stepState s0).rooms, ∀ p ∈ e.2.players,
        ∀ kv ∈ p.commanderDamage, 0 ≤ kv.2 by
    exact hgen es initState hes (by simp [initState])
  intro l
  induction l with
  | nil => intro s0 _ h0; exact h0
  | cons ev rest ih =>
    intro s0 hl h0
    exact ih _ (fun e hee => hl e (List.mem_cons_of_mem _ hee))
      (step s0 ev (hl ev (List.mem_cons_self _ _)) h0)

/-- Witness for the amended C8: a trace whose only damage input is 3. -/
theorem damage_nonneg_of_nonneg_inputs_witness :
    (∀ ev ∈ wDamageEvents, eventDamageOK ev) ∧
    (∀ e ∈ (runEvents wDamageEvents).rooms, ∀ p ∈ e.2.players,
      ∀ kv ∈ p.commanderDamage, 0 ≤ kv.2) := by
  have hes : ∀ ev ∈ wDamageEvents, eventDamageOK ev := by
    intro ev hev
    fin_cases hev <;> simp [eventDamageOK]
  exact ⟨hes, damage_nonneg_of_nonneg_inputs wDamageEvents hes⟩

/-! ## C7: single-room membership -/

theorem ids_sub_updateFirst {f : Player → Player} {pid : Nat} {ps : List Player}
    (hf : ∀ x, (f x).id = x.id) :
    ∀ p ∈ updateFirst f pid ps, ∃ q ∈ ps, p.id = q.id := by
  intro p hp
  rcases mem_updateFirst hp with hp | ⟨q, hq, rfl⟩
  · exact ⟨p, hp, rfl⟩
  · exact ⟨q, hq, hf q⟩

theorem roomsMap_jset {rooms : List (String × Room)} {code : String} {room : Room}
    (hr : jget rooms code = some room) {room' : Room}
    (hids : ∀ p ∈ room'.players, ∃ q ∈ room.players, p.id = q.id) :
    ∀ e ∈ jset rooms code room', ∃ o ∈ rooms, e.1 = o.1 ∧
      ∀ p ∈ e.2.players, ∃ q ∈ o.2.players, p.id = q.id := by
  intro e he
  rcases mem_jset he with rfl | he'
  · exact ⟨(code, room), jget_mem hr, rfl, hids⟩
  · exact ⟨e, he', rfl, fun p hp => ⟨p, hp, rfl⟩⟩

theorem roomsMap_roomAddToLog {rooms rooms₀ : List (String × Room)}
    {code now msg : String}
    (h : ∀ e ∈ rooms, ∃ o ∈ rooms₀, e.1 = o.1 ∧
        ∀ p ∈ e.2.players, ∃ q ∈ o.2.players, p.id = q.id) :
    ∀ e ∈ roomAddToLog rooms code now msg, ∃ o ∈ rooms₀, e.1 = o.1 ∧
      ∀ p ∈ e.2.players, ∃ q ∈ o.2.players, p.id = q.id := by
  intro e he
  obtain ⟨e', he', hkey, hp⟩ := mem_roomAddToLog he
  obtain ⟨o, ho, hk2, hids⟩ := h e' he'
  refine ⟨o, ho, hkey.trans hk2, ?_⟩
  rw [hp]
  exact hids

/-- Shrinking the connections and replacing every room by a room with the
same key whose player ids come from the original room preserves the
single-room invariant. -/
theorem singleRoomInv_restrict (s : ServerState) (rooms' : List (String × Room))
    (conns' : List (Nat × Conn)) (h : singleRoomInv s)
    (hrk : (keys rooms').Nodup)
    (hck : (keys conns').Nodup)
    (hcs : ∀ c ∈ conns', c ∈ s.conns)
    (hmap : ∀ e ∈ rooms', ∃ o ∈ s.rooms, e.1 = o.1 ∧
        ∀ p ∈ e.2.players, ∃ q ∈ o.2.players, p.id = q.id) :
    singleRoomInv { s with rooms := rooms', conns := conns' } := by
  obtain ⟨h1, h2, h3, h4, h5, h6, h7⟩ := h
  refine ⟨hrk, hck, ?_, ?_, ?_, ?_, ?_⟩
  · intro c hc
    exact h3 c (hcs c hc)
  · intro e he p hp
    obtain ⟨o, ho, -, hids⟩ := hmap e he
    obtain ⟨q, hq, hqe⟩ := hids p hp
    rw [hqe]
    exact h4 o ho q hq
  · intro c1 hc1 c2 hc2 heq
    exact h5 c1 (hcs c1 hc1) c2 (hcs c2 hc2) heq
  · intro c hc hnone e he p hp
    obtain ⟨o, ho, -, hids⟩ := hmap e he
    obtain ⟨q, hq, hqe⟩ := hids p hp
    rw [hqe]
    exact h6 c (hcs c hc) hnone o ho q hq
  · intro e1 he1 e2 he2 pid ⟨p, hp, hpe⟩ ⟨q, hq, hqe⟩
    obtain ⟨o1, ho1, hk1, hids1⟩ := hmap e1 he1
    obtain ⟨o2, ho2, hk2, hids2⟩ := hmap e2 he2
    obtain ⟨p', hp', hpe'⟩ := hids1 p hp
    obtain ⟨q', hq', hqe'⟩ := hids2 q hq
    have ho12 : o1 = o2 :=
      h7 o1 ho1 o2 ho2 pid ⟨p', hp', by rw [← hpe', hpe]⟩ ⟨q', hq', by rw [← hqe', hqe]⟩
    exact mem_keys_inj hrk he1 he2 (by rw [hk1, hk2, ho12])

/-- Creating a room (from a roomless connection) preserves the
single-room invariant: the fresh room holds only the creator, whose id
belonged to no room. -/
theorem singleRoomInv_create_aux (s : ServerState) (connId : Nat) (conn : Conn)
    (nc now msg : String) (creator : Player)
    (hc : jget s.conns connId = some conn)
    (hnone : conn.currentRoomCode = none)
    (hcr : creator.id = conn.playerId)
    (h : singleRoomInv s) :
    singleRoomInv { s with
      rooms := roomAddToLog (jset s.rooms nc { players := [creator], gameLog := [] })
        nc now msg,
      conns := jset s.conns connId { conn with currentRoomCode := some nc } } := by
  obtain ⟨h1, h2, h3, h4, h5, h6, h7⟩ := h
  have hconnmem : (connId, conn) ∈ s.conns := jget_mem hc
  have hpid : conn.playerId < s.playerIdCounter := h3 _ hconnmem
  have hnodup' : (keys (roomAddToLog (jset s.rooms nc
      { players := [creator], gameLog := [] }) nc now msg)).Nodup :=
    keys_nodup_roomAddToLog (keys_nodup_jset h1)
  refine ⟨hnodup', keys_nodup_jset h2, ?_, ?_, ?_, ?_, ?_⟩
  · intro c hc'
    rcases mem_jset hc' with rfl | hcold
    · exact hpid
    · exact h3 c hcold
  · intro e he p hp
    obtain ⟨e', he', -, hpl⟩ := mem_roomAddToLog he
    rcases mem_jset he' with rfl | hold
    · rw [hpl] at hp
      rcases List.mem_singleton.1 hp with rfl
      rw [hcr]
      exact hpid
    · rw [hpl] at hp
      exact h4 e' hold p hp
  · intro c1 hc1 c2 hc2 heq
    rcases mem_jset_nodup h2 hc1 with rfl | ⟨hm1, hk1⟩ <;>
      rcases mem_jset_nodup h2 hc2 with heq2 | ⟨hm2, hk2⟩
    · rw [heq2]
    · exfalso
      have hcc : c2 = (connId, conn) :=
        h5 c2 hm2 (connId, conn) hconnmem (by exact heq.symm)
      exact hk2 (by rw [hcc])
    · exfalso
      rw [heq2] at heq
      have hcc : c1 = (connId, conn) :=
        h5 c1 hm1 (connId, conn) hconnmem (by exact heq)
      exact hk1 (by rw [hcc])
    · exact h5 c1 hm1 c2 hm2 heq
  · intro c hc' hcnone e he p hp
    rcases mem_jset_nodup h2 hc' with rfl | ⟨hcm, hck⟩
    · exact Option.noConfusion hcnone
    · obtain ⟨e', he', -, hpl⟩ := mem_roomAddToLog he
      rcases mem_jset he' with rfl | hold
      · rw [hpl] at hp
        rcases List.mem_singleton.1 hp with rfl
        rw [hcr]
        intro hid
        have hcc : (connId, conn) = c := h5 (connId, conn) hconnmem c hcm hid
        exact hck (by rw [← hcc])
      · rw [hpl] at hp
        exact h6 c hcm hcnone e' hold p hp
  · intro e1 he1 e2 he2 pid hp1 hp2
    have hmem : ∀ {e : String × Room},
        e ∈ roomAddToLog (jset s.rooms nc { players := [creator], gameLog := [] })
          nc now msg →
        (∃ p ∈ e.2.players, p.id = pid) →
        (e.1 = nc ∧ pid = conn.playerId) ∨
        (∃ o, o ∈ s.rooms ∧ e.1 = o.1 ∧ ∃ q ∈ o.2.players, q.id = pid) := by
      intro e he hpe
      obtain ⟨p, hp, hpe⟩ := hpe
      obtain ⟨e', he', hkey, hpl⟩ := mem_roomAddToLog he
      rcases mem_jset he' with rfl | hold
      · rw [hpl] at hp
        rcases List.mem_singleton.1 hp with rfl
        exact Or.inl ⟨hkey, by rw [← hpe, hcr]⟩
      · rw [hpl] at hp
        exact Or.inr ⟨e', hold, hkey, p, hp, hpe⟩
    rcases hmem he1 hp1 with ⟨hk1, rfl⟩ | ⟨o1, ho1, hk1, hq1⟩ <;>
      rcases hmem he2 hp2 with ⟨hk2, hpe2⟩ | ⟨o2, ho2, hk2, hq2⟩
    · exact mem_keys_inj hnodup' he1 he2 (hk1.trans hk2.symm)
    · exfalso
      obtain ⟨q, hq, hqe⟩ := hq2
      exact h6 (connId, conn) hconnmem hnone o2 ho2 q hq hqe
    · exfalso
      obtain ⟨q, hq, hqe⟩ := hq1
      exact h6 (connId, conn) hconnmem hnone o1 ho1 q hq (hqe.trans hpe2)
    · have ho12 : o1 = o2 := h7 o1 ho1 o2 ho2 pid hq1 hq2
      exact mem_keys_inj hnodup' he1 he2 (hk1.trans (ho12 ▸ hk2.symm))

/-- Joining a room (from a roomless connection) preserves the single-room
invariant: the joiner's id belonged to no room, and the other ids of the
grown room stay where they were. -/
theorem singleRoomInv_join_aux (s : ServerState) (connId : Nat) (conn : Conn)
    (code now msg : String) (room : Room) (newP : Player)
    (hc : jget s.conns connId = some conn)
    (hnone : conn.currentRoomCode = none)
    (hroom : jget s.rooms code = some room)
    (hnp : newP.id = conn.playerId)
    (h : singleRoomInv s) :
    singleRoomInv { s with
      rooms := roomAddToLog (jset s.rooms code
        { room with players := room.players ++ [newP] }) code now msg,
      conns := jset s.conns connId { conn with currentRoomCode := some code } } := by
  obtain ⟨h1, h2, h3, h4, h5, h6, h7⟩ := h
  have hconnmem : (connId, conn) ∈ s.conns := jget_mem hc
  have hroommem : (code, room) ∈ s.rooms := jget_mem hroom
  have hpid : conn.playerId < s.playerIdCounter := h3 _ hconnmem
  have hnodup' : (keys (roomAddToLog (jset s.rooms code
      { room with players := room.players ++ [newP] }) code now msg)).Nodup :=
    keys_nodup_roomAddToLog (keys_nodup_jset h1)
  refine ⟨hnodup', keys_nodup_jset h2, ?_, ?_, ?_, ?_, ?_⟩
  · intro c hc'
    rcases mem_jset hc' with rfl | hcold
    · exact hpid
    · exact h3 c hcold
  · intro e he p hp
    obtain ⟨e', he', -, hpl⟩ := mem_roomAddToLog he
    rcases mem_jset he' with rfl | hold
    · rw [hpl] at hp
      rcases List.mem_append.1 hp with hp | hp
      · exact h4 (code, room) hroommem p hp
      · rcases List.mem_singleton.1 hp with rfl
        rw [hnp]
        exact hpid
    · rw [hpl] at hp
      exact h4 e' hold p hp
  · intro c1 hc1 c2 hc2 heq
    rcases mem_jset_nodup h2 hc1 with rfl | ⟨hm1, hk1⟩ <;>
      rcases mem_jset_nodup h2 hc2 with heq2 | ⟨hm2, hk2⟩
    · rw [heq2]
    · exfalso
      have hcc : c2 = (connId, conn) :=
        h5 c2 hm2 (connId, conn) hconnmem (by exact heq.symm)
      exact hk2 (by rw [hcc])
    · exfalso
      rw [heq2] at heq
      have hcc : c1 = (connId, conn) :=
        h5 c1 hm1 (connId, conn) hconnmem (by exact heq)
      exact hk1 (by rw [hcc])
    · exact h5 c1 hm1 c2 hm2 heq
  · intro c hc' hcnone e he p hp
    rcases mem_jset_nodup h2 hc' with rfl | ⟨hcm, hck⟩
    · exact Option.noConfusion hcnone
    · obtain ⟨e', he', -, hpl⟩ := mem_roomAddToLog he
      rcases mem_jset he' with rfl | hold
      · rw [hpl] at hp
        rcases List.mem_append.1 hp with hp | hp
        · exact h6 c hcm hcnone (code, room) hroommem p hp
        · rcases List.mem_singleton.1 hp with rfl
          rw [hnp]
          intro hid
          have hcc : (connId, conn) = c := h5 (connId, conn) hconnmem c hcm hid
          exact hck (by rw [← hcc])
      · rw [hpl] at hp
        exact h6 c hcm hcnone e' hold p hp
  · intro e1 he1 e2 he2 pid hp1 hp2
    have hmem : ∀ {e : String × Room},
        e ∈ roomAddToLog (jset s.rooms code
          { room with players := room.players ++ [newP] }) code now msg →
        (∃ p ∈ e.2.players, p.id = pid) →
        (e.1 = code ∧ ∃ p ∈ room.players ++ [newP], p.id = pid) ∨
        (∃ o, o ∈ s.rooms ∧ e.1 = o.1 ∧ ∃ q ∈ o.2.players, q.id = pid) := by
      intro e he hpe
      obtain ⟨p, hp, hpe⟩ := hpe
      obtain ⟨e', he', hkey, hpl⟩ := mem_roomAddToLog he
      rcases mem_jset he' with rfl | hold
      · rw [hpl] at hp
        exact Or.inl ⟨hkey, p, hp, hpe⟩
      · rw [hpl] at hp
        exact Or.inr ⟨e', hold, hkey, p, hp, hpe⟩
    rcases hmem he1 hp1 with ⟨hk1, hq1⟩ | ⟨o1, ho1, hk1, hq1⟩ <;>
      rcases hmem he2 hp2 with ⟨hk2, hq2⟩ | ⟨o2, ho2, hk2, hq2⟩
    · exact mem_keys_inj hnodup' he1 he2 (hk1.trans hk2.symm)
    · obtain ⟨p, hp, hpe⟩ := hq1
      rcases List.mem_append.1 hp with hp | hp
      · have ho : (code, room) = o2 :=
          h7 (code, room) hroommem o2 ho2 pid ⟨p, hp, hpe⟩ hq2
        exact mem_keys_inj hnodup' he1 he2 (by rw [hk1, hk2, ← ho])
      · rcases List.mem_singleton.1 hp with rfl
        exfalso
        obtain ⟨q, hq, hqe⟩ := hq2
        exact h6 (connId, conn) hconnmem hnone o2 ho2 q hq
          (hqe.trans (hpe.symm.trans hnp))
    · obtain ⟨p, hp, hpe⟩ := hq2
      rcases List.mem_append.1 hp with hp | hp
      · have ho : (code, room) = o1 :=
          h7 (code, room) hroommem o1 ho1 pid ⟨p, hp, hpe⟩ hq1
        exact mem_keys_inj hnodup' he1 he2 (by rw [hk1, hk2, ← ho])
      · rcases List.mem_singleton.1 hp with rfl
        exfalso
        obtain ⟨q, hq, hqe⟩ := hq1
        exact h6 (connId, conn) hconnmem hnone o1 ho1 q hq
          (hqe.trans (hpe.symm.trans hnp))
    · have ho12 : o1 = o2 := h7 o1 ho1 o2 ho2 pid hq1 hq2
      exact mem_keys_inj hnodup' he1 he2 (hk1.trans (ho12 ▸ hk2.symm))

theorem mem_updateFirst' {f : Player → Player} {pid : Nat} {ps : List Player} {q : Player}
    (h : q ∈ updateFirst f pid ps) :
    q ∈ ps ∨ ∃ p, p ∈ ps ∧ p.id = pid ∧ q = f p := by
  induction ps with
  | nil => simp [updateFirst] at h
  | cons p rest ih =>
    by_cases hp : p.id = pid
    · simp only [updateFirst, if_pos hp, List.mem_cons] at h
      rcases h with h | h
      · exact Or.inr ⟨p, List.mem_cons_self p rest, hp, h⟩
      · exact Or.inl (List.mem_cons_of_mem _ h)
    · simp only [updateFirst, if_neg hp, List.mem_cons] at h
      rcases h with h | h
      · exact Or.inl (by simp [h])
      · rcases ih h with h' | ⟨p', hp', hid', hq'⟩
        · exact Or.inl (List.mem_cons_of_mem _ h')
        · exact Or.inr ⟨p', List.mem_cons_of_mem _ hp', hid', hq'⟩

theorem ids_sub_updateFirst_const {q0 : Player} {pid : Nat} {ps : List Player}
    (hq0 : q0.id = pid) :
    ∀ p ∈ updateFirst (fun _ => q0) pid ps, ∃ q ∈ ps, p.id = q.id := by
  intro p hp
  rcases mem_updateFirst' hp with hp | ⟨r, hr, hrid, rfl⟩
  · exact ⟨p, hp, rfl⟩
  · exact ⟨r, hr, by rw [hq0, hrid]⟩

/-- A fresh connection preserves the single-room invariant: the new player
id equals the old counter, above every id in use. -/
theorem singleRoomInv_connect (s : ServerState) (connId : Nat)
    (h : singleRoomInv s) : singleRoomInv (handleConnect s connId) := by
  obtain ⟨h1, h2, h3, h4, h5, h6, h7⟩ := h
  unfold handleConnect
  cases hc : jget s.conns connId with
  | some conn => exact ⟨h1, h2, h3, h4, h5, h6, h7⟩
  | none =>
    refine ⟨h1, keys_nodup_jset h2, ?_, ?_, ?_, ?_, h7⟩
    · intro c hc'
      rcases mem_jset hc' with rfl | hcold
      · exact Nat.lt_succ_self _
      · exact Nat.lt_succ_of_lt (h3 c hcold)
    · intro e he p hp
      exact Nat.lt_succ_of_lt (h4 e he p hp)
    · intro c1 hc1 c2 hc2 heq
      rcases mem_jset_nodup h2 hc1 with rfl | ⟨hm1, hk1⟩ <;>
        rcases mem_jset_nodup h2 hc2 with heq2 | ⟨hm2, hk2⟩
      · rw [heq2]
      · exfalso
        have hlt : c2.2.playerId < s.playerIdCounter := h3 c2 hm2
        have heq' : s.playerIdCounter = c2.2.playerId := heq
        omega
      · exfalso
        have hlt : c1.2.playerId < s.playerIdCounter := h3 c1 hm1
        rw [heq2] at heq
        have heq' : c1.2.playerId = s.playerIdCounter := heq
        omega
      · exact h5 c1 hm1 c2 hm2 heq
    · intro c hc' hcnone e he p hp
      rcases mem_jset_nodup h2 hc' with rfl | ⟨hcm, -⟩
      · exact Nat.ne_of_lt (h4 e he p hp)
      · exact h6 c hcm hcnone e he p hp

/-- One room-discipline-respecting event preserves the invariant. -/
theorem singleRoomInv_step (s : ServerState) (ev : Event)
    (hgood : goodEvent s ev) (h : singleRoomInv s) :
    singleRoomInv (stepState s ev) := by
  cases ev with
  | connect connId =>
    exact singleRoomInv_connect s connId h
  | message connId nc mnow data =>
    rcases hc : jget s.conns connId with _ | conn
    · simp only [stepState, stepEv, handleMessage, hc]
      exact h
    · cases data with
      | none =>
        simp only [stepState, stepEv, handleMessage, hc]
        exact h
      | some m =>
        cases m with
        | createRoom =>
          have hnone : conn.currentRoomCode = none := hgood conn hc
          simp only [stepState, stepEv, handleMessage, hc, handleCreateRoom]
          exact singleRoomInv_create_aux s connId conn nc mnow _ _ hc hnone rfl h
        | joinRoom code =>
          have hnone : conn.currentRoomCode = none := hgood conn hc
          rcases hr : jget s.rooms code with _ | room
          · simp only [stepState, stepEv, handleMessage, hc, handleJoinRoom, hr]
            exact h
          · by_cases hfull : room.players.length ≥ 6
            · simp only [stepState, stepEv, handleMessage, hc, handleJoinRoom, hr,
                if_pos hfull]
              exact h
            · simp only [stepState, stepEv, handleMessage, hc, handleJoinRoom, hr,
                if_neg hfull]
              exact singleRoomInv_join_aux s connId conn code mnow _ room _
                hc hnone hr rfl h
        | updateLife pid l =>
          rcases hcc : conn.currentRoomCode with _ | code
          · simp only [stepState, stepEv, handleMessage, hc, handleUpdateLife, hcc]
            exact h
          · rcases hr : jget s.rooms code with _ | room
            · simp only [stepState, stepEv, handleMessage, hc, handleUpdateLife, hcc, hr]
              exact h
            · rcases hf : findPlayer room.players pid with _ | player
              · simp only [stepState, stepEv, handleMessage, hc, handleUpdateLife, hcc,
                  hr, hf]
                exact h
              · simp only [stepState, stepEv, handleMessage, hc, handleUpdateLife, hcc,
                  hr, hf]
                refine singleRoomInv_restrict s _ _ ⟨h.1, h.2.1, h.2.2.1, h.2.2.2.1,
                  h.2.2.2.2.1, h.2.2.2.2.2.1, h.2.2.2.2.2.2⟩
                  (keys_nodup_roomAddToLog (keys_nodup_jset h.1)) h.2.1
                  (fun c hcm => hcm) ?_
                exact roomsMap_roomAddToLog
                  (roomsMap_jset hr (ids_sub_updateFirst (fun x => rfl)))
        | updateCommanderDamage sid tid dmg =>
          rcases hcc : conn.currentRoomCode with _ | code
          · simp only [stepState, stepEv, handleMessage, hc,
              handleUpdateCommanderDamage, hcc]
            exact h
          · rcases hr : jget s.rooms code with _ | room
            · simp only [stepState, stepEv, handleMessage, hc,
                handleUpdateCommanderDamage, hcc, hr]
              exact h
            · rcases hft : findPlayer room.players tid with _ | target
              · simp only [stepState, stepEv, handleMessage, hc,
                  handleUpdateCommanderDamage, hcc, hr, hft]
                exact h
              · rcases hfs : findPlayer room.players sid with _ | source
                · simp only [stepState, stepEv, handleMessage, hc,
                    handleUpdateCommanderDamage, hcc, hr, hft, hfs]
                  exact h
                · simp only [stepState, stepEv, handleMessage, hc,
                    handleUpdateCommanderDamage, hcc, hr, hft, hfs]
                  have hid : (ucdTarget target sid dmg).id = tid := by
                    rw [ucdTarget_id]
                    exact (findPlayer_some hft).2
                  refine singleRoomInv_restrict s _ _ ⟨h.1, h.2.1, h.2.2.1, h.2.2.2.1,
                    h.2.2.2.2.1, h.2.2.2.2.2.1, h.2.2.2.2.2.2⟩ ?_ h.2.1
                    (fun c hcm => hcm) ?_
                  · split_ifs <;>
                      first
                      | exact keys_nodup_roomAddToLog (keys_nodup_jset h.1)
                      | exact keys_nodup_jset h.1
                  · intro e he
                    obtain ⟨e', he', hkey, hpl⟩ := mem_ite_roomAddToLog he
                    obtain ⟨o, ho, hk2, hids⟩ :=
                      roomsMap_jset hr (ids_sub_updateFirst_const hid) e' he'
                    refine ⟨o, ho, hkey.trans hk2, ?_⟩
                    rw [hpl]
                    exact hids
        | updateName pid nm =>
          rcases hcc : conn.currentRoomCode with _ | code
          · simp only [stepState, stepEv, handleMessage, hc, handleUpdateName, hcc]
            exact h
          · rcases hr : jget s.rooms code with _ | room
            · simp only [stepState, stepEv, handleMessage, hc, handleUpdateName, hcc, hr]
              exact h
            · rcases hf : findPlayer room.players pid with _ | player
              · simp only [stepState, stepEv, handleMessage, hc, handleUpdateName, hcc,
                  hr, hf]
                exact h
              · simp only [stepState, stepEv, handleMessage, hc, handleUpdateName, hcc,
                  hr, hf]
                refine singleRoomInv_restrict s _ _ ⟨h.1, h.2.1, h.2.2.1, h.2.2.2.1,
                  h.2.2.2.2.1, h.2.2.2.2.2.1, h.2.2.2.2.2.2⟩
                  (keys_nodup_roomAddToLog (keys_nodup_jset h.1)) h.2.1
                  (fun c hcm => hcm) ?_
                exact roomsMap_roomAddToLog
                  (roomsMap_jset hr (ids_sub_updateFirst (fun x => rfl)))
        | resetGame =>
          rcases hcc : conn.currentRoomCode with _ | code
          · simp only [stepState, stepEv, handleMessage, hc, handleResetGame, hcc]
            exact h
          · rcases hr : jget s.rooms code with _ | room
            · simp only [stepState, stepEv, handleMessage, hc, handleResetGame, hcc, hr]
              exact h
            · simp only [stepState, stepEv, handleMessage, hc, handleResetGame, hcc, hr]
              refine singleRoomInv_restrict s _ _ ⟨h.1, h.2.1, h.2.2.1, h.2.2.2.1,
                h.2.2.2.2.1, h.2.2.2.2.2.1, h.2.2.2.2.2.2⟩
                (keys_nodup_roomAddToLog (keys_nodup_jset h.1)) h.2.1
                (fun c hcm => hcm) ?_
              refine roomsMap_roomAddToLog (roomsMap_jset hr ?_)
              intro p hp
              rcases List.mem_map.1 hp with ⟨q, hq, rfl⟩
              exact ⟨q, hq, rfl⟩
        | unknown t =>
          simp only [stepState, stepEv, handleMessage, hc]
          exact h
  | close connId cnow =>
    rcases hc : jget s.conns connId with _ | conn
    · simp only [stepState, stepEv, handleClose, hc]
      exact h
    · rcases hcc : conn.currentRoomCode with _ | code
      · simp only [stepState, stepEv, handleClose, hc, hcc]
        exact singleRoomInv_restrict s _ _ h h.1 (keys_nodup_jdel h.2.1)
          (fun c hcm => mem_jdel hcm) (fun e he => ⟨e, he, rfl, fun p hp => ⟨p, hp, rfl⟩⟩)
      · rcases hr : jget s.rooms code with _ | room
        · simp only [stepState, stepEv, handleClose, hc, hcc, hr]
          exact singleRoomInv_restrict s _ _ h h.1 (keys_nodup_jdel h.2.1)
            (fun c hcm => mem_jdel hcm)
            (fun e he => ⟨e, he, rfl, fun p hp => ⟨p, hp, rfl⟩⟩)
        · by_cases hz :
            (room.players.filter (fun p => p.id ≠ conn.playerId)).length = 0
          · simp only [stepState, stepEv, handleClose, hc, hcc, hr, if_pos hz]
            exact singleRoomInv_restrict s _ _ h (keys_nodup_jdel h.1)
              (keys_nodup_jdel h.2.1) (fun c hcm => mem_jdel hcm)
              (fun e he => ⟨e, mem_jdel he, rfl, fun p hp => ⟨p, hp, rfl⟩⟩)
          · simp only [stepState, stepEv, handleClose, hc, hcc, hr, if_neg hz]
            refine singleRoomInv_restrict s _ _ h
              (keys_nodup_roomAddToLog (keys_nodup_jset h.1)) (keys_nodup_jdel h.2.1)
              (fun c hcm => mem_jdel hcm) ?_
            refine roomsMap_roomAddToLog (roomsMap_jset hr ?_)
            intro p hp
            exact ⟨p, List.mem_of_mem_filter hp, rfl⟩

/-- C7 counterexample: the create-create-join sequence of
`cexTwoRoomsEvents` is a legal sequence of CREATE_ROOM, JOIN_ROOM and
disconnect events after which player id 1 sits in the player lists of the
two distinct rooms AAAAAA and BBBBBB: a join never removes the joiner from
its previous room. -/
theorem single_room_membership_counterexample :
    ((jget (runEvents cexTwoRoomsEvents).rooms "AAAAAA").map
        fun r => r.players.map fun p => p.id) = some [1] ∧
    ((jget (runEvents cexTwoRoomsEvents).rooms "BBBBBB").map
        fun r => r.players.map fun p => p.id) = some [2, 1] ∧
    ("AAAAAA" : String) ≠ "BBBBBB" :=
  ⟨by decide, by decide, by decide⟩

/-- C7 (amended): in every state reachable through events in which no
connection creates or joins a room while already in one (which is all the
client UI can produce), each player id appears in the player list of at
most one registered room. -/
theorem player_in_at_most_one_room (s : ServerState) (hs : GoodReach s) :
    ∀ e1 ∈ s.rooms, ∀ e2 ∈ s.rooms, ∀ pid : Nat,
      (∃ p ∈ e1.2.players, p.id = pid) → (∃ q ∈ e2.2.players, q.id = pid) →
      e1 = e2 := by
  have hinv : singleRoomInv s := by
    induction hs with
    | init =>
      refine ⟨?_, ?_, ?_, ?_, ?_, ?_, ?_⟩ <;> simp [initState, keys]
    | step s' ev hs' hgood ih => exact singleRoomInv_step s' ev hgood ih
  exact hinv.2.2.2.2.2.2

/-- Witness for the amended C7: the one-room good trace; the room entry
containing player 1 is unique. -/
theorem player_in_at_most_one_room_witness :
    ("AAAAAA", wGoodRoom) ∈ (runEvents wGoodTrace).rooms ∧
    ("AAAAAA", wGoodRoom) = ("AAAAAA", wGoodRoom) := by
  have h1 : GoodReach (stepState initState (Event.connect 1)) :=
    GoodReach.step _ _ GoodReach.init trivial
  have h2 : GoodReach (stepState (stepState initState (Event.connect 1))
      (Event.message 1 "AAAAAA" "10:00:00 AM" (some ClientMessage.createRoom))) :=
    GoodReach.step _ _ h1 (by
      intro c hc
      have h' : some (⟨1, none⟩ : Conn) = some c := hc
      injection h' with h'
      rw [← h'])
  have hg : GoodReach (runEvents wGoodTrace) := h2
  have hmem : ("AAAAAA", wGoodRoom) ∈ (runEvents wGoodTrace).rooms := by decide
  refine ⟨hmem, ?_⟩
  exact player_in_at_most_one_room _ hg _ hmem _ hmem 1
    ⟨{ id := 1, name := "Player 1", life := 40, color := "#FF6B6B",
       commanderDamage := [], ws := 1 }, by decide, by decide⟩
    ⟨{ id := 1, name := "Player 1", life := 40, color := "#FF6B6B",
       commanderDamage := [], ws := 1 }, by decide, by decide⟩
